import Mathlib

/-!
Shallow embedding of the recurring "cloud resource auditor" scaffold of the
automation-scripts repository, translated from the Python sources:

* aws-ebs-unattached-volume-auditor.py  (region discovery, pagination,
  tag/age filtering, capped delete remediation, JSON reporting)
* aws-ec2-idle-instance-auditor.py      (CloudWatch metric fetchers, idle
  classification, capped tag remediation, the line-215 attribute bug)
* aws-nat-gateway-idle-auditor.py       (CloudWatch metric fetchers with
  0.0 defaulting, NAT gateway pagination, idle classification)
* aws-ecr-repository-empty-auditor.py   (capped tag/delete remediation)

Numeric observations and thresholds are modelled as rationals, timestamps as
integers (seconds), fallible SDK calls as `Except`/`Option` valued backends,
and mutating actions as callables returning an optional error string, exactly
as the Python code treats them.
-/

namespace AutomationScripts

/-- A continuation token field as found in a listing response.  Python tests
it with `if not token: break`, so `none` and the empty string both stop the
pagination loop. -/
def tokenTruthy : Option String → Bool
  | none => false
  | some s => !s.isEmpty

namespace EbsVolumeAuditor

/-- An EBS volume record as it appears in a `describe_volumes` response of
aws-ebs-unattached-volume-auditor.py: the fields the script reads.
`createTime` is a UTC timestamp in seconds, absent when the API omits
`CreateTime`.  `tags` is the raw `Tags` list of Key/Value pairs. -/
structure Volume where
  volumeId : String
  status : String
  createTime : Option Int
  size : Nat
  tags : List (String × String)
deriving Repr, DecidableEq

/-- Dictionary lookup over the dict built by `tags_dict` (line 98): later
occurrences of a key overwrite earlier ones, as in a Python dict
comprehension. -/
def tagsGet (tagsList : List (String × String)) (k : String) : Option String :=
  tagsList.foldl (fun acc t => if t.1 == k then some t.2 else acc) none

/-- `matches_required` (lines 102-109): with no required tags every volume
matches; otherwise every required Key=Value pair must be present. -/
def matches_required (vol : Volume) (needed : List (String × String)) : Bool :=
  needed.all fun kv => tagsGet vol.tags kv.1 == some kv.2

/-- Age computation of lines 176-181: `(now - created).days`, which floors
the elapsed seconds towards minus infinity, `none` when `CreateTime` was
absent. -/
def age_days (now : Int) (created : Option Int) : Option Int :=
  created.map fun c => Int.fdiv (now - c) 86400

/-- The age-filter guard of line 182:
`args.older_than_days is not None and age_days is not None and
age_days < args.older_than_days`.  A `true` result skips the volume. -/
def skipByAge (olderThan : Option Int) (age : Option Int) : Bool :=
  match olderThan, age with
  | some o, some a => a < o
  | _, _ => false

/-- The server-side `Filters: [{"Name": "status", "Values": ["available"]}]`
that `list_available_volumes` sends with every `describe_volumes` request
(lines 116-118): the response only contains volumes in state `available`. -/
def statusAvailableFilter (vols : List Volume) : List Volume :=
  vols.filter fun v => v.status == "available"

/-- One `describe_volumes` response page: a chunk of volumes plus an optional
`NextToken`. -/
structure DescribeVolumesResp where
  volumes : List Volume
  nextToken : Option String
deriving Repr, DecidableEq

/-- The pagination loop of `list_available_volumes` (lines 112-126), modelled
over the stream of successive responses the backend hands out: each loop
iteration consumes the next response, accumulates its `Volumes`, and stops as
soon as the response carries no (truthy) `NextToken`. -/
def list_available_volumes : List DescribeVolumesResp → List Volume
  | [] => []
  | r :: rest =>
    r.volumes ++ (if tokenTruthy r.nextToken then list_available_volumes rest else [])

/-- Number of `describe_volumes` calls the loop of lines 112-126 issues on a
given response stream. -/
def listCalls : List DescribeVolumesResp → Nat
  | [] => 0
  | r :: rest => 1 + (if tokenTruthy r.nextToken then listCalls rest else 0)

/-- The per-volume output record of lines 186-200, restricted to the fields
the verified claims are about.  The snapshot-before-delete branch
(lines 202-207) only fills the snapshot fields and affects neither the cap
accounting nor `delete_attempted`, so it is not carried here. -/
structure VolumeRec where
  volume_id : String
  size_gb : Nat
  ageDays : Option Int
  delete_attempted : Bool
  delete_error : Option String
deriving Repr, DecidableEq

/-- The CLI arguments of the script that the main loop reads. -/
structure Args where
  apply : Bool
  max_apply : Nat
  older_than_days : Option Int
  required_tag : List (String × String)
deriving Repr

/-- The per-volume loop of `main` (lines 173-212) over the volumes of one
region: tag filter, age filter, record construction, and the capped apply
branch `if args.apply and operated < args.max_apply` which invokes
`delete_volume`, marks the record attempted, and increments `operated`
unconditionally (line 211), success or not.  `deleteVolume` models the
`delete_volume` helper (lines 143-148): it returns `none` on success and the
stringified exception otherwise.  The result carries the records, the final
`operated` counter, and the list of volume ids `delete_volume` was invoked
on. -/
def processVolumes (args : Args) (now : Int) (deleteVolume : String → Option String) :
    List Volume → Nat → List VolumeRec × Nat × List String
  | [], operated => ([], operated, [])
  | v :: vs, operated =>
    if !matches_required v args.required_tag then
      processVolumes args now deleteVolume vs operated
    else
      let age := age_days now v.createTime
      if skipByAge args.older_than_days age then
        processVolumes args now deleteVolume vs operated
      else
        let base : VolumeRec :=
          { volume_id := v.volumeId, size_gb := v.size, ageDays := age,
            delete_attempted := false, delete_error := none }
        if args.apply && decide (operated < args.max_apply) then
          let err := deleteVolume v.volumeId
          let out := processVolumes args now deleteVolume vs (operated + 1)
          ({ base with delete_attempted := true, delete_error := err } :: out.1,
           out.2.1, v.volumeId :: out.2.2)
        else
          let out := processVolumes args now deleteVolume vs operated
          (base :: out.1, out.2.1, out.2.2)

/-- Whether a volume survives the tag and age filters of lines 174-183 and
therefore produces an output record. -/
def passesFilters (args : Args) (now : Int) (v : Volume) : Bool :=
  matches_required v args.required_tag &&
    !skipByAge args.older_than_days (age_days now v.createTime)

/-- `discover_regions` (lines 65-73), shared verbatim with
aws-ec2-idle-instance-auditor.py (lines 82-90) and
aws-nat-gateway-idle-auditor.py (lines 80-88): a truthy (non-empty) explicit
region list is returned unchanged; otherwise `describe_regions` is queried
and its region names returned sorted; any exception from that query yields
the hardcoded fallback `["us-east-1"]`. -/
def discover_regions (explicit : Option (List String))
    (describeRegions : Except String (List String)) : List String :=
  match explicit with
  | some (r :: rs) => r :: rs
  | _ =>
    match describeRegions with
    | .ok names => names.mergeSort (fun a b => decide (a ≤ b))
    | .error _ => ["us-east-1"]

end EbsVolumeAuditor

namespace Ec2IdleAuditor

/-- A CloudWatch datapoint of a `get_metric_statistics` response, reduced to
the one statistic field the scripts read; `none` models a datapoint dict
lacking that field, which `p.get(..., 0.0)` replaces with `0.0`. -/
abbrev Datapoint := Option Rat

/-- `cw_avg_metric` of aws-ec2-idle-instance-auditor.py (lines 114-131): the
backend either throws (`Except.error`) or returns the datapoint list.  On an
exception or an empty datapoint list the function returns `None`; otherwise
the plain mean of the `Average` fields. -/
def cw_avg_metric (backend : Except String (List Datapoint)) : Option Rat :=
  match backend with
  | .error _ => none
  | .ok pts =>
    if pts.isEmpty then none
    else
      let vals := pts.map fun p => p.getD 0
      some (vals.sum / (vals.length : Rat))

/-- `cw_sum_metric` of aws-ec2-idle-instance-auditor.py (lines 134-150):
`None` on an exception or an empty datapoint list, otherwise the sum of the
`Sum` fields. -/
def cw_sum_metric (backend : Except String (List Datapoint)) : Option Rat :=
  match backend with
  | .error _ => none
  | .ok pts =>
    if pts.isEmpty then none
    else some ((pts.map fun p => p.getD 0).sum)

/-- The idle classification of line 222:
`idle = (cpu_v <= args.max_cpu_avg) and (net_total_mb <= args.max_network_mb)`. -/
def isIdle (cpu_v max_cpu_avg net_total_mb max_network_mb : Rat) : Bool :=
  decide (cpu_v ≤ max_cpu_avg) && decide (net_total_mb ≤ max_network_mb)

/-- The per-instance output record of lines 226-237, restricted to the
remediation fields. -/
structure InstanceRec where
  instance_id : String
  tag_attempted : Bool
  tag_error : Option String
  stop_attempted : Bool
  stop_error : Option String
deriving Repr, DecidableEq

/-- The remediation-relevant CLI arguments of the script. -/
structure Ec2Args where
  apply_tag : Bool
  max_tag : Nat
  apply_stop : Bool
  confirm_stop : Bool
  max_stop : Nat
deriving Repr

/-- The per-flagged-instance remediation of lines 239-250, iterated over the
ids of the instances that passed the idle classification of one region.
The tag branch (lines 239-244) invokes `tag_instance`, marks the record
attempted, and increments `tagged` only when the action returned no error.
The stop branch (lines 246-248) only queues the id in `to_stop` and marks the
record; `stopped` does not change during enumeration.  `tagInstance` models
`tag_instance` (lines 153-158): `none` on success, the stringified exception
otherwise.  The result carries the records, the final `tagged` counter, the
ids `tag_instance` was invoked on, and the accumulated `to_stop` queue. -/
def instanceLoop (args : Ec2Args) (tagInstance : String → Option String) :
    List String → Nat → Nat → List InstanceRec × Nat × List String × List String
  | [], tagged, _ => ([], tagged, [], [])
  | iid :: rest, tagged, stopped =>
    let tagStep :=
      if args.apply_tag && decide (tagged < args.max_tag) then
        let err := tagInstance iid
        (true, err, if err == none then tagged + 1 else tagged, [iid])
      else (false, none, tagged, [])
    let stopStep :=
      if args.apply_stop && args.confirm_stop && decide (stopped < args.max_stop) then
        (true, [iid])
      else (false, ([] : List String))
    let out := instanceLoop args tagInstance rest tagStep.2.2.1 stopped
    ({ instance_id := iid, tag_attempted := tagStep.1, tag_error := tagStep.2.1,
       stop_attempted := stopStep.1, stop_error := none } :: out.1,
     out.2.1, tagStep.2.2.2 ++ out.2.2.1, stopStep.2 ++ out.2.2.2)

/-- The per-region batch stop of lines 256-265: when `to_stop` is non-empty
and stopping is enabled and under the cap, `stop_instances` is called once on
the first `max_stop - stopped` queued ids; on an error every queued record of
the batch gets that error, otherwise `stopped` grows by the batch size.  The
second component is the batch `stop_instances` was invoked on, `none` when it
was not invoked at all. -/
def regionStopBatch (args : Ec2Args) (stopInstances : List String → Option String)
    (toStop : List String) (stopped : Nat) (recs : List InstanceRec) :
    List InstanceRec × Nat × Option (List String) :=
  if !toStop.isEmpty && args.apply_stop && args.confirm_stop &&
      decide (stopped < args.max_stop) then
    let batch := toStop.take (args.max_stop - stopped)
    match stopInstances batch with
    | some err =>
      (recs.map fun r =>
        if batch.contains r.instance_id && r.stop_attempted then
          { r with stop_error := some err }
        else r,
       stopped, some batch)
    | none => (recs, stopped + batch.length, some batch)
  else (recs, stopped, none)

/-- Attribute table of the `argparse.Namespace` that `parse_args`
(lines 53-73) produces: the destination names of every declared flag.  Only
the presence of a name matters to the line-215 bug; flag values are carried
as Python ints (a Python `bool` is an `int`), with `0` standing in for the
non-numeric defaults. -/
def ec2ArgsFields (treatMissingMetricsIdle : Bool) : List (String × Int) :=
  [("regions", 0), ("profile", 0), ("window_days", 7), ("period", 3600),
   ("max_cpu_avg", 3), ("max_network_mb", 50), ("name_filter", 0),
   ("exclude_tag", 0),
   ("treat_missing_metrics_idle", if treatMissingMetricsIdle then 1 else 0),
   ("apply_tag", 0), ("tag_key", 0), ("tag_value", 0), ("max_tag", 100),
   ("apply_stop", 0), ("confirm_stop", 0), ("max_stop", 5),
   ("ci_exit_on_findings", 0), ("json", 0)]

/-- The fragment of Python expression syntax that line 215 uses: local-name
reads, attribute reads on `args`, binary `-`, `not`, and short-circuit
`and`. -/
inductive PyExpr where
  | name (s : String)
  | attr (field : String)
  | sub (a b : PyExpr)
  | pynot (a : PyExpr)
  | pyand (a b : PyExpr)
deriving Repr

/-- First-match lookup in a name table. -/
def lookupName (xs : List (String × Int)) (k : String) : Option Int :=
  (xs.find? fun p => p.1 == k).map (·.2)

/-- The evaluation environment at line 215: the `args` namespace attributes
and the local variables of `main` that are bound at that point. -/
structure Scope where
  argsFields : List (String × Int)
  localVars : List (String × Int)

/-- Python evaluation order for the modelled fragment: names raise
`NameError` when unbound, attribute reads raise `AttributeError` when the
namespace lacks the attribute, `a - b` evaluates `a` before `b`, `not x`
maps zero to 1 and non-zero to 0, and `a and b` short-circuits on a falsy
`a`. -/
def PyExpr.eval (sc : Scope) : PyExpr → Except String Int
  | .name s =>
    match lookupName sc.localVars s with
    | some v => .ok v
    | none => .error ("NameError: name " ++ s ++ " is not defined")
  | .attr f =>
    match lookupName sc.argsFields f with
    | some v => .ok v
    | none => .error ("AttributeError: Namespace object has no attribute " ++ f)
  | .sub a b =>
    match a.eval sc with
    | .error e => .error e
    | .ok x =>
      match b.eval sc with
      | .error e => .error e
      | .ok y => .ok (x - y)
  | .pynot a =>
    match a.eval sc with
    | .error e => .error e
    | .ok x => .ok (if x == 0 then 1 else 0)
  | .pyand a b =>
    match a.eval sc with
    | .error e => .error e
    | .ok x => if x == 0 then .ok x else b.eval sc

/-- The guard expression of line 215 as Python parses it:
`metrics_missing and not (((args.treat - missing) - metrics) - idle)` —
the intended flag `treat_missing_metrics_idle` is never named. -/
def line215Guard : PyExpr :=
  .pyand (.name "metrics_missing")
    (.pynot (.sub (.sub (.sub (.attr "treat") (.name "missing"))
      (.name "metrics")) (.name "idle")))

end Ec2IdleAuditor

namespace EcrRepositoryAuditor

/-- The per-repository output record of lines 210-223, restricted to the
remediation fields. -/
structure RepoRec where
  name : String
  flag_empty : Bool
  tag_attempted : Bool
  tag_error : Option String
  delete_attempted : Bool
  delete_error : Option String
deriving Repr, DecidableEq

/-- The remediation-relevant CLI arguments of
aws-ecr-repository-empty-auditor.py. -/
structure EcrArgs where
  apply_tag : Bool
  max_apply : Nat
  apply_delete : Bool
  max_delete : Nat
deriving Repr

/-- A flagged repository as the remediation step of lines 225-238 sees it:
its name and whether it was flagged empty (`is_empty`, which gates the
delete branch). -/
structure FlaggedRepo where
  name : String
  is_empty : Bool
deriving Repr, DecidableEq

/-- The capped remediation of lines 225-238 over the flagged repositories:
the tag branch increments `tagged` only when `add_tag` succeeded, the delete
branch (gated on `is_empty`) increments `deleted` only when `delete_repo`
succeeded.  Returns the records and the final counters. -/
def remediateRepos (args : EcrArgs) (addTag deleteRepo : String → Option String) :
    List FlaggedRepo → Nat → Nat → List RepoRec × Nat × Nat
  | [], tagged, deleted => ([], tagged, deleted)
  | repo :: rest, tagged, deleted =>
    let tagStep :=
      if args.apply_tag && decide (tagged < args.max_apply) then
        let err := addTag repo.name
        (true, err, if err == none then tagged + 1 else tagged)
      else (false, none, tagged)
    let delStep :=
      if args.apply_delete && repo.is_empty && decide (deleted < args.max_delete) then
        let err := deleteRepo repo.name
        (true, err, if err == none then deleted + 1 else deleted)
      else (false, none, deleted)
    let out := remediateRepos args addTag deleteRepo rest tagStep.2.2 delStep.2.2
    ({ name := repo.name, flag_empty := repo.is_empty,
       tag_attempted := tagStep.1, tag_error := tagStep.2.1,
       delete_attempted := delStep.1, delete_error := delStep.2.1 } :: out.1,
     out.2)

end EcrRepositoryAuditor

end AutomationScripts

namespace AutomationScripts

namespace NatGatewayAuditor

open Ec2IdleAuditor (Datapoint)

/-- `cw_sum_metric` of aws-nat-gateway-idle-auditor.py (lines 91-106):
`float(sum(p.get("Sum", 0.0) for p in points))`, which is `0.0` for an empty
datapoint list, and `0.0` again when the backend call throws. -/
def cw_sum_metric (backend : Except String (List Datapoint)) : Rat :=
  match backend with
  | .error _ => 0
  | .ok pts => (pts.map fun p => p.getD 0).sum

/-- `cw_avg_metric` of aws-nat-gateway-idle-auditor.py (lines 108-126):
`0.0` on an empty datapoint list or a thrown backend call, otherwise the
plain mean of the `Average` fields. -/
def cw_avg_metric (backend : Except String (List Datapoint)) : Rat :=
  match backend with
  | .error _ => 0
  | .ok pts =>
    if pts.isEmpty then 0
    else
      let vals := pts.map fun p => p.getD 0
      vals.sum / (vals.length : Rat)

/-- The idle classification of line 218:
`is_idle = (total_bytes <= args.min_bytes) and (avg_conn <= args.max_active_conn_avg)`. -/
def is_idle (total_bytes min_bytes avg_conn max_active_conn_avg : Rat) : Bool :=
  decide (total_bytes ≤ min_bytes) && decide (avg_conn ≤ max_active_conn_avg)

/-- A NAT gateway record as read by the script: its id and `State`. -/
structure NatGateway where
  natGatewayId : String
  state : String
deriving Repr, DecidableEq

/-- One `describe_nat_gateways` response page. -/
structure DescribeNatGatewaysResp where
  natGateways : List NatGateway
  nextToken : Option String
deriving Repr, DecidableEq

/-- The pagination loop of `list_nat_gateways` (lines 129-141): each
iteration consumes the next response, keeps the page's gateways whose
`State` is `available` (the comprehension of line 137), and stops as soon as
the response carries no (truthy) `NextToken`. -/
def list_nat_gateways : List DescribeNatGatewaysResp → List NatGateway
  | [] => []
  | r :: rest =>
    (r.natGateways.filter fun g => g.state == "available") ++
      (if tokenTruthy r.nextToken then list_nat_gateways rest else [])

/-- Number of `describe_nat_gateways` calls the loop of lines 129-141 issues
on a given response stream. -/
def natListCalls : List DescribeNatGatewaysResp → Nat
  | [] => 0
  | r :: rest => 1 + (if tokenTruthy r.nextToken then natListCalls rest else 0)

end NatGatewayAuditor

namespace PyJson

/-- The opening curly brace character. -/
def lbrace : Char := Char.ofNat 123

/-- The closing curly brace character. -/
def rbrace : Char := Char.ofNat 125

/-- A finite Python float, identified with the decimal its `repr` prints:
sign, the significant digits most significant first, and the position of
the decimal point, denoting `±0.d₁…dₙ × 10^decpt`.  CPython's shortest-repr
guarantee `float(repr(x)) == x` makes the map from finite doubles to these
triples injective, so the identification is exact on every float value the
scripts can serialize. -/
structure PyFloat where
  neg : Bool
  digits : List Nat
  decpt : Int
deriving Repr, DecidableEq

/-- The digit strings CPython's `dtoa` shortest mode actually produces:
the zero mantissa `[0]` (printed `0.0`/`-0.0`, with the point after it), or
decimal digits with no leading and no trailing zero. -/
def PyFloat.ok (f : PyFloat) : Bool :=
  (f.digits == [0] && f.decpt == 1) ||
  (!f.digits.isEmpty && f.digits.head? != some 0 && f.digits.getLast? != some 0 &&
    f.digits.all fun d => decide (d < 10))

/-- A JSON-representable scalar value as the auditors place them in their
flat output records: `null`, a boolean, an integer, a finite float, or a
string. -/
inductive JVal where
  | null
  | bool (b : Bool)
  | int (n : Int)
  | float (x : PyFloat)
  | str (s : String)
deriving Repr, DecidableEq

/-- The scalar values CPython can have produced: floats carry the canonical
shortest-repr digit string, everything else is unconstrained. -/
def valOk : JVal → Bool
  | .float x => x.ok
  | _ => true

/-- A flat field-mapping record: ordered string keys with scalar values. -/
abbrev JRecord := List (String × JVal)

/-- Lowercase hexadecimal digit, as CPython's `json` encoder emits in
`\uXXXX` escapes. -/
def hexDigitChar (n : Nat) : Char :=
  if n < 10 then Char.ofNat (48 + n) else Char.ofNat (87 + n)

/-- Four-digit lowercase hexadecimal rendering of `n < 0x10000`. -/
def hex4 (n : Nat) : List Char :=
  [hexDigitChar (n / 4096 % 16), hexDigitChar (n / 256 % 16),
   hexDigitChar (n / 16 % 16), hexDigitChar (n % 16)]

/-- CPython `json.dumps` escaping with the default `ensure_ascii=True`:
quote, backslash and the short control escapes get two-character escapes,
every other character outside the printable ASCII range 0x20-0x7e becomes
`\uXXXX`, with astral characters written as a surrogate pair. -/
def escapeChar (c : Char) : List Char :=
  if c = '"' then ['\\', '"']
  else if c = '\\' then ['\\', '\\']
  else if c = '\n' then ['\\', 'n']
  else if c = '\r' then ['\\', 'r']
  else if c = '\t' then ['\\', 't']
  else if c.toNat = 8 then ['\\', 'b']
  else if c.toNat = 12 then ['\\', 'f']
  else if 32 ≤ c.toNat ∧ c.toNat ≤ 126 then [c]
  else if c.toNat < 65536 then '\\' :: 'u' :: hex4 c.toNat
  else
    ('\\' :: 'u' :: hex4 (55296 + (c.toNat - 65536) / 1024)) ++
      ('\\' :: 'u' :: hex4 (56320 + (c.toNat - 65536) % 1024))

/-- A JSON string literal: the escaped characters between double quotes. -/
def quoteString (s : String) : List Char :=
  '"' :: ((s.data.map escapeChar).flatten ++ ['"'])

/-- Decimal digits of a natural number, most significant first. -/
def natDigits (n : Nat) : List Char :=
  if n < 10 then [Char.ofNat (48 + n)]
  else natDigits (n / 10) ++ [Char.ofNat (48 + n % 10)]
termination_by n
decreasing_by simp_wf; omega

/-- Decimal rendering of an integer, as CPython's `int.__repr__`. -/
def intDigits (n : Int) : List Char :=
  if n < 0 then '-' :: natDigits (-n).toNat else natDigits n.toNat

/-- One decimal digit as a character. -/
def digitChar10 (d : Nat) : Char := Char.ofNat (48 + d)

/-- CPython's `repr` of a finite float (what `json.dumps` prints for it),
as `format_float_short` renders the shortest digit string: fixed notation
when `-4 < decpt ≤ 16` — zero-padded on either side of the point, always
keeping a digit after it — and scientific notation `d[.ddd]e±XX` otherwise,
with exponent `decpt - 1` printed signed with at least two digits. -/
def dumpFloat (f : PyFloat) : List Char :=
  (cond f.neg ['-'] []) ++
  (if f.decpt ≤ -4 ∨ 16 < f.decpt then
    (match f.digits.map digitChar10 with
     | [] => []
     | [d] => [d]
     | d :: ds => d :: '.' :: ds) ++
    ('e' :: (if f.decpt - 1 < 0 then '-' else '+') ::
      (if (f.decpt - 1).natAbs < 10 then '0' :: natDigits (f.decpt - 1).natAbs
       else natDigits (f.decpt - 1).natAbs))
  else if f.decpt ≤ 0 then
    '0' :: '.' :: (List.replicate f.decpt.natAbs '0' ++ f.digits.map digitChar10)
  else if (f.digits.length : Int) ≤ f.decpt then
    f.digits.map digitChar10 ++
      List.replicate (f.decpt - f.digits.length).toNat '0' ++ ['.', '0']
  else
    (f.digits.map digitChar10).take f.decpt.toNat ++
      '.' :: (f.digits.map digitChar10).drop f.decpt.toNat)

/-- Serialization of one scalar value. -/
def dumpVal : JVal → List Char
  | .null => "null".data
  | .bool true => "true".data
  | .bool false => "false".data
  | .int n => intDigits n
  | .float x => dumpFloat x
  | .str s => quoteString s

/-- Interleaves a separator between the given chunks. -/
def sepBy (sep : List Char) : List (List Char) → List Char
  | [] => []
  | [x] => x
  | x :: xs => x ++ sep ++ sepBy sep xs

/-- Serialization of one record at nesting depth 1 of
`json.dumps(records, indent=2)`: members indented four spaces, the closing
brace two, item separator `",\n"`, key-value separator `": "`, and a bare
`"\x7b\x7d"` for an empty record. -/
def dumpRecord (r : JRecord) : List Char :=
  match r with
  | [] => "\x7b\x7d".data
  | _ =>
    "\x7b\n".data ++
      sepBy ",\n".data
        (r.map fun kv => "    ".data ++ quoteString kv.1 ++ ": ".data ++ dumpVal kv.2) ++
      "\n  \x7d".data

/-- `json.dumps(records, indent=2)` for a list of flat records: records
indented two spaces, item separator `",\n"`, and a bare `"[]"` for the empty
list. -/
def dumps (records : List JRecord) : String :=
  match records with
  | [] => "[]"
  | _ =>
    String.mk ("[\n".data ++
      sepBy ",\n".data (records.map fun r => "  ".data ++ dumpRecord r) ++
      "\n]".data)

/-- JSON insignificant whitespace. -/
def isWs (c : Char) : Bool := c = ' ' || c = '\n' || c = '\t' || c = '\r'

/-- Drops leading insignificant whitespace. -/
def skipWs : List Char → List Char
  | [] => []
  | c :: cs => if isWs c then skipWs cs else c :: cs

/-- Value of one hexadecimal digit, upper or lower case. -/
def hexVal? (c : Char) : Option Nat :=
  if 48 ≤ c.toNat ∧ c.toNat ≤ 57 then some (c.toNat - 48)
  else if 97 ≤ c.toNat ∧ c.toNat ≤ 102 then some (c.toNat - 87)
  else if 65 ≤ c.toNat ∧ c.toNat ≤ 70 then some (c.toNat - 55)
  else none

/-- Decoder of the two-character escapes `\"`, `\\`, `\/`, `\n`, `\r`, `\t`,
`\b`, `\f`; `none` for anything else (the `\uXXXX` form is handled
separately). -/
def decodeSimpleEscape (e : Char) : Option Char :=
  if e = '"' then some '"'
  else if e = '\\' then some '\\'
  else if e = '/' then some '/'
  else if e = 'n' then some '\n'
  else if e = 'r' then some '\r'
  else if e = 't' then some '\t'
  else if e = 'b' then some (Char.ofNat 8)
  else if e = 'f' then some (Char.ofNat 12)
  else none

/-- Reads four hexadecimal digits and returns their value and the remaining
input. -/
def readHex4 : List Char → Option (Nat × List Char)
  | a :: b :: c :: d :: rest =>
    match hexVal? a, hexVal? b, hexVal? c, hexVal? d with
    | some ha, some hb, some hc, some hd =>
      some (4096 * ha + 256 * hb + 16 * hc + hd, rest)
    | _, _, _, _ => none
  | _ => none

/-- Expects the literal characters `lit` as a prefix of the input and
returns what follows them. -/
def parseLit (lit : List Char) (cs : List Char) : Option (List Char) :=
  match lit, cs with
  | [], rest => some rest
  | l :: ls, c :: rest => if c = l then parseLit ls rest else none
  | _ :: _, [] => none

/-- Reads a `\uXXXX` escape holding a low surrogate (the continuation of a
surrogate pair). -/
def readLowSurrogate (cs : List Char) : Option (Nat × List Char) :=
  match parseLit ['\\', 'u'] cs with
  | none => none
  | some cs1 =>
    match readHex4 cs1 with
    | none => none
    | some (m, r) => if 56320 ≤ m ∧ m ≤ 57343 then some (m, r) else none

/-- Decoder of a JSON string body (the part after the opening quote), as
CPython's `json` scanner reads it: plain characters up to the closing quote,
backslash escapes, `\uXXXX` escapes, and surrogate pairs combined into one
astral character.  Returns the decoded characters and the input remaining
after the closing quote.  `fuel` bounds the number of decoded characters;
every call site passes at least the input length, which each decoding step
consumes from. -/
def parseStringBody : Nat → List Char → Option (List Char × List Char)
  | 0, _ => none
  | _ + 1, [] => none
  | fuel + 1, c :: cs =>
    if c = '"' then some ([], cs)
    else if c = '\\' then
      match cs with
      | [] => none
      | e :: cs2 =>
        if e = 'u' then
          match readHex4 cs2 with
          | none => none
          | some (n, cs3) =>
            if 55296 ≤ n ∧ n ≤ 56319 then
              match readLowSurrogate cs3 with
              | none => none
              | some (m, cs4) =>
                match parseStringBody fuel cs4 with
                | some (s, r) =>
                  some (Char.ofNat (65536 + (n - 55296) * 1024 + (m - 56320)) :: s, r)
                | none => none
            else if 56320 ≤ n ∧ n ≤ 57343 then none
            else
              match parseStringBody fuel cs3 with
              | some (s, r) => some (Char.ofNat n :: s, r)
              | none => none
        else
          match decodeSimpleEscape e with
          | none => none
          | some ch =>
            match parseStringBody fuel cs2 with
            | some (s, r) => some (ch :: s, r)
            | none => none
    else
      match parseStringBody fuel cs with
      | some (s, r) => some (c :: s, r)
      | none => none

/-- Decimal digit test. -/
def isDigitChar (c : Char) : Bool := 48 ≤ c.toNat && c.toNat ≤ 57

/-- Consumes a maximal run of decimal digits, accumulating their value. -/
def parseDigits (acc : Nat) : List Char → Nat × List Char
  | [] => (acc, [])
  | c :: cs =>
    if isDigitChar c then parseDigits (10 * acc + (c.toNat - 48)) cs
    else (acc, c :: cs)

/-- The characters that extend a number token: digits, the decimal point
and the exponent markers. -/
def isNumCont (c : Char) : Bool := isDigitChar c || c = '.' || c = 'e' || c = 'E'

/-- Digit value of a decimal digit character. -/
def digitVal (c : Char) : Nat := c.toNat - 48

/-- Whether the input starts with a decimal digit. -/
def startsDigit : List Char → Bool
  | [] => false
  | c :: _ => isDigitChar c

/-- Consumes a maximal run of decimal digits as digit values. -/
def takeDigits : List Char → List Nat × List Char
  | [] => ([], [])
  | c :: cs =>
    if isDigitChar c then
      (digitVal c :: (takeDigits cs).1, (takeDigits cs).2)
    else ([], c :: cs)

/-- Value of a digit list, most significant first. -/
def digitsVal (ds : List Nat) : Nat := ds.foldl (fun a d => 10 * a + d) 0

/-- Integer from a sign and its digit list. -/
def intOfParts (neg : Bool) (ds : List Nat) : Int :=
  if neg then -(digitsVal ds : Int) else (digitsVal ds : Int)

/-- CPython's `float(token)` on a JSON number token, modelled on the decimal
the token spells: the significant digits of `±0.(I++F) × 10^(|I|+E)` in
canonical form, leading and trailing zeros stripped.  On every canonical
`repr` token — the only number tokens the serializer emits — this agrees
exactly with CPython's binary conversion, by the shortest-repr round-trip
guarantee. -/
def normFloat (neg : Bool) (ipart fpart : List Nat) (e : Int) : PyFloat :=
  let all := ipart ++ fpart
  let lead := (all.takeWhile fun d => d == 0).length
  let core := ((all.dropWhile fun d => d == 0).reverse.dropWhile fun d => d == 0).reverse
  if core.isEmpty then { neg := neg, digits := [0], decpt := 1 }
  else { neg := neg, digits := core, decpt := (ipart.length : Int) + e - lead }

/-- Reads `[eE][-+]?digits`, the optional exponent group of the number
grammar; `none` when the group is absent. -/
def parseExp : List Char → Option (Int × List Char)
  | [] => none
  | c :: cs =>
    if c = 'e' ∨ c = 'E' then
      match cs with
      | [] => none
      | c2 :: cs2 =>
        if c2 = '+' then
          if startsDigit cs2 then
            some (((parseDigits 0 cs2).1 : Int), (parseDigits 0 cs2).2)
          else none
        else if c2 = '-' then
          if startsDigit cs2 then
            some (-((parseDigits 0 cs2).1 : Int), (parseDigits 0 cs2).2)
          else none
        else if isDigitChar c2 then
          some (((parseDigits 0 cs).1 : Int), (parseDigits 0 cs).2)
        else none
    else none

/-- Continues a number token after integer part and fraction: an optional
exponent decides between the two float shapes. -/
def parseNumTail (neg : Bool) (ipart fpart : List Nat) (rest : List Char) :
    Option (JVal × List Char) :=
  match parseExp rest with
  | some (e, r) => some (.float (normFloat neg ipart fpart e), r)
  | none => some (.float (normFloat neg ipart fpart 0), rest)

/-- Continues a number token after the integer part: an optional fraction
`.digits` and an optional exponent, as in the scanner's number regex; the
token is an `int` exactly when both are absent, a float otherwise. -/
def parseNumBody (neg : Bool) (ipart : List Nat) (rest : List Char) :
    Option (JVal × List Char) :=
  match rest with
  | c :: cs2 =>
    if c = '.' then
      if startsDigit cs2 then
        parseNumTail neg ipart (takeDigits cs2).1 (takeDigits cs2).2
      else some (.int (intOfParts neg ipart), c :: cs2)
    else
      match parseExp (c :: cs2) with
      | some (e, r) => some (.float (normFloat neg ipart [] e), r)
      | none => some (.int (intOfParts neg ipart), c :: cs2)
  | [] => some (.int (intOfParts neg ipart), [])

/-- Decoder of a JSON number: optional minus sign, integer digits, then
fraction and exponent.  Digit runs are read maximally, a laxness beyond the
JSON `0|[1-9]\d*` integer grammar that no printed output exercises. -/
def parseNumber : List Char → Option (JVal × List Char)
  | [] => none
  | c :: cs1 =>
    if c = '-' then
      if startsDigit cs1 then
        parseNumBody true (takeDigits cs1).1 (takeDigits cs1).2
      else none
    else if isDigitChar c then
      parseNumBody false (takeDigits (c :: cs1)).1 (takeDigits (c :: cs1)).2
    else none

/-- Decoder of one scalar value. -/
def parseVal : List Char → Option (JVal × List Char)
  | [] => none
  | c :: cs =>
    if c = '"' then
      match parseStringBody (cs.length + 1) cs with
      | some (s, r) => some (.str (String.mk s), r)
      | none => none
    else if c = 'n' then
      match parseLit ['u', 'l', 'l'] cs with
      | some r => some (.null, r)
      | none => none
    else if c = 't' then
      match parseLit ['r', 'u', 'e'] cs with
      | some r => some (.bool true, r)
      | none => none
    else if c = 'f' then
      match parseLit ['a', 'l', 's', 'e'] cs with
      | some r => some (.bool false, r)
      | none => none
    else parseNumber (c :: cs)

/-- Decoder of a non-empty member list of a JSON object, starting right
after the opening brace; `fuel` bounds the number of members. -/
def parseMembers : Nat → List Char → Option (JRecord × List Char)
  | 0, _ => none
  | fuel + 1, cs =>
    match skipWs cs with
    | c :: cs1 =>
      if c = '"' then
        match parseStringBody (cs1.length + 1) cs1 with
        | some (k, cs2) =>
          match skipWs cs2 with
          | c2 :: cs3 =>
            if c2 = ':' then
              match parseVal (skipWs cs3) with
              | some (v, cs4) =>
                match skipWs cs4 with
                | c3 :: cs5 =>
                  if c3 = ',' then
                    match parseMembers fuel cs5 with
                    | some (rest, cs6) => some ((String.mk k, v) :: rest, cs6)
                    | none => none
                  else if c3 = rbrace then some ([(String.mk k, v)], cs5)
                  else none
                | [] => none
              | none => none
            else none
          | [] => none
        | none => none
      else none
    | [] => none

/-- Decoder of one JSON object holding a flat record. -/
def parseRecord (fuel : Nat) (cs : List Char) : Option (JRecord × List Char) :=
  match skipWs cs with
  | c :: cs1 =>
    if c = lbrace then
      match skipWs cs1 with
      | c2 :: cs2 => if c2 = rbrace then some ([], cs2) else parseMembers fuel cs1
      | [] => none
    else none
  | [] => none

/-- Decoder of a non-empty record sequence up to the closing bracket of the
top-level array, starting right after the opening bracket. -/
def parseRecordsAux : Nat → List Char → Option (List JRecord × List Char)
  | 0, _ => none
  | fuel + 1, cs =>
    match parseRecord fuel cs with
    | some (r, cs1) =>
      match skipWs cs1 with
      | c :: cs2 =>
        if c = ',' then
          match parseRecordsAux fuel cs2 with
          | some (rs, cs3) => some (r :: rs, cs3)
          | none => none
        else if c = ']' then some ([r], cs2)
        else none
      | [] => none
    | none => none

/-- `json.loads` restricted to the shape the auditors print: a top-level
array of flat records.  The fuel `s.length + 1` dominates any member or
record count an input of that size can hold. -/
def loads (s : String) : Option (List JRecord) :=
  match skipWs s.data with
  | c :: cs1 =>
    if c = '[' then
      match skipWs cs1 with
      | c2 :: cs2 =>
        if c2 = ']' then if (skipWs cs2).isEmpty then some [] else none
        else
          match parseRecordsAux (s.data.length + 1) cs1 with
          | some (rs, rest) => if (skipWs rest).isEmpty then some rs else none
          | none => none
      | [] => none
    else none
  | [] => none

end PyJson

namespace EbsVolumeAuditor

/-- Reference instant for the end-to-end scenario of the spec's testable
property 7 (seconds). -/
def scenarioNow : Int := 2000000000

/-- The mocked describe-volumes content of the end-to-end scenario: two
`available` volumes aged 10 and 2 days and one `in-use` volume aged 30
days. -/
def scenarioVolumes : List Volume :=
  [{ volumeId := "vol-1", status := "available",
     createTime := some (scenarioNow - 10 * 86400), size := 100, tags := [] },
   { volumeId := "vol-2", status := "available",
     createTime := some (scenarioNow - 2 * 86400), size := 50, tags := [] },
   { volumeId := "vol-3", status := "in-use",
     createTime := some (scenarioNow - 30 * 86400), size := 200, tags := [] }]

/-- The scenario invocation: dry run with `--older-than-days 7` and no tag
filters. -/
def scenarioArgs : Args :=
  { apply := false, max_apply := 100, older_than_days := some 7, required_tag := [] }

end EbsVolumeAuditor

namespace EbsVolumeAuditor

theorem skipByAge_none_age (ot : Option Int) : skipByAge ot none = false := by
  cases ot <;> rfl

theorem age_days_none (now : Int) : age_days now none = none := rfl

theorem processVolumes_dry_run (maxApply : Nat) (olderThan : Option Int)
    (needed : List (String × String)) (now : Int) (del : String → Option String) :
    ∀ (vols : List Volume) (operated : Nat),
      (processVolumes ⟨false, maxApply, olderThan, needed⟩ now del vols operated).2.2 = [] ∧
      ∀ r ∈ (processVolumes ⟨false, maxApply, olderThan, needed⟩ now del vols operated).1,
        r.delete_attempted = false := by
  intro vols
  induction vols with
  | nil => intro operated; exact ⟨rfl, by intro r hr; cases hr⟩
  | cons v vs ih =>
    intro operated
    by_cases h1 : matches_required v needed
    · by_cases h2 : skipByAge olderThan (age_days now v.createTime)
      · simpa [processVolumes, h1, h2] using ih operated
      · have := ih operated
        simp only [processVolumes, h1, h2, Bool.not_true, Bool.false_and,
          Bool.false_eq_true, if_false, if_true, Bool.not_false, ite_false, ite_true]
        refine ⟨this.1, ?_⟩
        intro r hr
        rcases List.mem_cons.mp hr with h | h
        · subst h; rfl
        · exact this.2 r h
    · simpa [processVolumes, h1] using ih operated

theorem processVolumes_length (args : Args) (now : Int) (del : String → Option String) :
    ∀ (vols : List Volume) (operated : Nat),
      (processVolumes args now del vols operated).1.length
        = vols.countP (fun v => passesFilters args now v) := by
  intro vols
  induction vols with
  | nil => intro operated; rfl
  | cons v vs ih =>
    intro operated
    by_cases h1 : matches_required v args.required_tag
    · by_cases h2 : skipByAge args.older_than_days (age_days now v.createTime)
      · simp [processVolumes, h1, h2, List.countP_cons, passesFilters, ih operated]
      · by_cases h3 : args.apply && decide (operated < args.max_apply)
        · simp [processVolumes, h1, h2, h3, List.countP_cons, passesFilters, ih (operated + 1)]
        · simp [processVolumes, h1, h2, h3, List.countP_cons, passesFilters, ih operated]
    · simp [processVolumes, h1, List.countP_cons, passesFilters, ih operated]

theorem processVolumes_attempted_count (maxApply : Nat) (olderThan : Option Int)
    (needed : List (String × String)) (now : Int) (del : String → Option String) :
    ∀ (vols : List Volume) (operated : Nat),
      (processVolumes ⟨true, maxApply, olderThan, needed⟩ now del vols operated).1.countP
          (fun r => r.delete_attempted)
        = min (maxApply - operated)
            (vols.countP (fun v => passesFilters ⟨true, maxApply, olderThan, needed⟩ now v)) := by
  intro vols
  induction vols with
  | nil => intro operated; simp [processVolumes]
  | cons v vs ih =>
    intro operated
    by_cases h1 : matches_required v needed
    · by_cases h2 : skipByAge olderThan (age_days now v.createTime)
      · simp [processVolumes, h1, h2, List.countP_cons, passesFilters, ih operated]
      · by_cases h3 : operated < maxApply
        · have hIH := ih (operated + 1)
          simp [processVolumes, h1, h2, h3, List.countP_cons, passesFilters, hIH] <;> omega
        · have hIH := ih operated
          simp [processVolumes, h1, h2, h3, List.countP_cons, passesFilters, hIH] <;> omega
    · simp [processVolumes, h1, List.countP_cons, passesFilters, ih operated]

end EbsVolumeAuditor

namespace Ec2IdleAuditor

theorem instanceLoop_dry_run (maxTag maxStop : Nat) (confirmStop : Bool)
    (tagI : String → Option String) :
    ∀ (ids : List String) (tagged stopped : Nat),
      (instanceLoop ⟨false, maxTag, false, confirmStop, maxStop⟩ tagI ids tagged stopped).2.2.1 = [] ∧
      ∀ r ∈ (instanceLoop ⟨false, maxTag, false, confirmStop, maxStop⟩ tagI ids tagged stopped).1,
        r.tag_attempted = false ∧ r.stop_attempted = false := by
  intro ids
  induction ids with
  | nil => intro tagged stopped; exact ⟨rfl, by intro r hr; cases hr⟩
  | cons i is ih =>
    intro tagged stopped
    have := ih tagged stopped
    simp only [instanceLoop, Bool.false_and, Bool.false_eq_true, if_false]
    refine ⟨by simpa using this.1, ?_⟩
    intro r hr
    rcases List.mem_cons.mp hr with h | h
    · subst h; exact ⟨rfl, rfl⟩
    · exact this.2 r h

theorem regionStopBatch_dry_run (maxTag maxStop : Nat) (confirmStop : Bool)
    (stopI : List String → Option String) (toStop : List String) (stopped : Nat)
    (recs : List InstanceRec) :
    regionStopBatch ⟨false, maxTag, false, confirmStop, maxStop⟩ stopI toStop stopped recs
      = (recs, stopped, none) := by
  simp [regionStopBatch]

theorem instanceLoop_success_count (args : Ec2Args) (tagI : String → Option String) :
    ∀ (ids : List String) (tagged stopped : Nat),
      (instanceLoop args tagI ids tagged stopped).1.countP
          (fun r => r.tag_attempted && (r.tag_error == none))
        ≤ args.max_tag - tagged := by
  intro ids
  induction ids with
  | nil => intro tagged stopped; simp [instanceLoop]
  | cons i is ih =>
    intro tagged stopped
    by_cases h1 : args.apply_tag && decide (tagged < args.max_tag)
    · have hlt : tagged < args.max_tag := by
        have h1' := h1
        simp only [Bool.and_eq_true, decide_eq_true_eq] at h1'
        exact h1'.2
      cases h2 : tagI i with
      | none =>
        have hIH := ih (tagged + 1) stopped
        simp [instanceLoop, h1, h2, List.countP_cons, hIH] <;> omega
      | some e =>
        have hIH := ih tagged stopped
        simp [instanceLoop, h1, h2, List.countP_cons, hIH] <;> omega
    · have hIH := ih tagged stopped
      simp [instanceLoop, h1, List.countP_cons, hIH] <;> omega

theorem instanceLoop_attempted_succeeds (args : Ec2Args) (tagI : String → Option String)
    (hsucc : ∀ i, tagI i = none) :
    ∀ (ids : List String) (tagged stopped : Nat),
      (instanceLoop args tagI ids tagged stopped).1.countP (fun r => r.tag_attempted)
        ≤ args.max_tag - tagged := by
  intro ids
  induction ids with
  | nil => intro tagged stopped; simp [instanceLoop]
  | cons i is ih =>
    intro tagged stopped
    by_cases h1 : args.apply_tag && decide (tagged < args.max_tag)
    · have hlt : tagged < args.max_tag := by
        have h1' := h1
        simp only [Bool.and_eq_true, decide_eq_true_eq] at h1'
        exact h1'.2
      have hIH := ih (tagged + 1) stopped
      simp [instanceLoop, h1, hsucc i, List.countP_cons, hIH] <;> omega
    · have hIH := ih tagged stopped
      simp [instanceLoop, h1, List.countP_cons, hIH] <;> omega

end Ec2IdleAuditor

namespace EcrRepositoryAuditor

theorem remediateRepos_tag_success_count (args : EcrArgs)
    (addTag deleteRepo : String → Option String) :
    ∀ (repos : List FlaggedRepo) (tagged deleted : Nat),
      (remediateRepos args addTag deleteRepo repos tagged deleted).1.countP
          (fun r => r.tag_attempted && (r.tag_error == none)) ≤ args.max_apply - tagged := by
  intro repos
  induction repos with
  | nil => intro tagged deleted; simp [remediateRepos]
  | cons repo rest ih =>
    intro tagged deleted
    by_cases h1 : args.apply_tag && decide (tagged < args.max_apply) <;>
      by_cases h2 : args.apply_delete && repo.is_empty && decide (deleted < args.max_delete)
    · have hlt1 : tagged < args.max_apply := by
        have h1' := h1
        simp only [Bool.and_eq_true, decide_eq_true_eq] at h1'
        exact h1'.2
      cases htag : addTag repo.name <;> cases hdel : deleteRepo repo.name
      · have hIH := ih (tagged + 1) (deleted + 1)
        simp [remediateRepos, h1, h2, htag, hdel, List.countP_cons, hIH] <;> omega
      · have hIH := ih (tagged + 1) deleted
        simp [remediateRepos, h1, h2, htag, hdel, List.countP_cons, hIH] <;> omega
      · have hIH := ih tagged (deleted + 1)
        simp [remediateRepos, h1, h2, htag, hdel, List.countP_cons, hIH] <;> omega
      · have hIH := ih tagged deleted
        simp [remediateRepos, h1, h2, htag, hdel, List.countP_cons, hIH] <;> omega
    · have hlt1 : tagged < args.max_apply := by
        have h1' := h1
        simp only [Bool.and_eq_true, decide_eq_true_eq] at h1'
        exact h1'.2
      cases htag : addTag repo.name
      · have hIH := ih (tagged + 1) deleted
        simp [remediateRepos, h1, h2, htag, List.countP_cons, hIH] <;> omega
      · have hIH := ih tagged deleted
        simp [remediateRepos, h1, h2, htag, List.countP_cons, hIH] <;> omega
    · cases hdel : deleteRepo repo.name
      · have hIH := ih tagged (deleted + 1)
        simp [remediateRepos, h1, h2, hdel, List.countP_cons, hIH] <;> omega
      · have hIH := ih tagged deleted
        simp [remediateRepos, h1, h2, hdel, List.countP_cons, hIH] <;> omega
    · have hIH := ih tagged deleted
      simp [remediateRepos, h1, h2, List.countP_cons, hIH] <;> omega

theorem remediateRepos_delete_success_count (args : EcrArgs)
    (addTag deleteRepo : String → Option String) :
    ∀ (repos : List FlaggedRepo) (tagged deleted : Nat),
      (remediateRepos args addTag deleteRepo repos tagged deleted).1.countP
          (fun r => r.delete_attempted && (r.delete_error == none)) ≤ args.max_delete - deleted := by
  intro repos
  induction repos with
  | nil => intro tagged deleted; simp [remediateRepos]
  | cons repo rest ih =>
    intro tagged deleted
    by_cases h1 : args.apply_tag && decide (tagged < args.max_apply) <;>
      by_cases h2 : args.apply_delete && repo.is_empty && decide (deleted < args.max_delete)
    · have hlt2 : deleted < args.max_delete := by
        have h2' := h2
        simp only [Bool.and_eq_true, decide_eq_true_eq] at h2'
        exact h2'.2
      cases htag : addTag repo.name <;> cases hdel : deleteRepo repo.name
      · have hIH := ih (tagged + 1) (deleted + 1)
        simp [remediateRepos, h1, h2, htag, hdel, List.countP_cons, hIH] <;> omega
      · have hIH := ih (tagged + 1) deleted
        simp [remediateRepos, h1, h2, htag, hdel, List.countP_cons, hIH] <;> omega
      · have hIH := ih tagged (deleted + 1)
        simp [remediateRepos, h1, h2, htag, hdel, List.countP_cons, hIH] <;> omega
      · have hIH := ih tagged deleted
        simp [remediateRepos, h1, h2, htag, hdel, List.countP_cons, hIH] <;> omega
    · cases htag : addTag repo.name
      · have hIH := ih (tagged + 1) deleted
        simp [remediateRepos, h1, h2, htag, List.countP_cons, hIH] <;> omega
      · have hIH := ih tagged deleted
        simp [remediateRepos, h1, h2, htag, List.countP_cons, hIH] <;> omega
    · have hlt2 : deleted < args.max_delete := by
        have h2' := h2
        simp only [Bool.and_eq_true, decide_eq_true_eq] at h2'
        exact h2'.2
      cases hdel : deleteRepo repo.name
      · have hIH := ih tagged (deleted + 1)
        simp [remediateRepos, h1, h2, hdel, List.countP_cons, hIH] <;> omega
      · have hIH := ih tagged deleted
        simp [remediateRepos, h1, h2, hdel, List.countP_cons, hIH] <;> omega
    · have hIH := ih tagged deleted
      simp [remediateRepos, h1, h2, List.countP_cons, hIH] <;> omega

end EcrRepositoryAuditor

theorem countP_not_eq {α : Type} (p : α → Bool) (l : List α) :
    l.countP (fun a => !p a) = l.length - l.countP p := by
  induction l with
  | nil => rfl
  | cons a l ih =>
    have hle : l.countP p ≤ l.length := l.countP_le_length p
    by_cases h : p a = true <;> simp [List.countP_cons, h, ih] <;> omega

namespace EbsVolumeAuditor

theorem list_available_volumes_pages (last : DescribeVolumesResp)
    (extra : List DescribeVolumesResp) (hlast : tokenTruthy last.nextToken = false) :
    ∀ pre : List DescribeVolumesResp, (∀ p ∈ pre, tokenTruthy p.nextToken = true) →
      list_available_volumes (pre ++ last :: extra)
          = ((pre ++ [last]).map (fun r => r.volumes)).flatten ∧
        listCalls (pre ++ last :: extra) = pre.length + 1 := by
  intro pre
  induction pre with
  | nil =>
    intro _
    constructor
    · simp [list_available_volumes, hlast]
    · simp [listCalls, hlast]
  | cons p ps ih =>
    intro hpre
    have hp : tokenTruthy p.nextToken = true := hpre p (List.mem_cons_self p ps)
    have hps := ih fun q hq => hpre q (List.mem_cons_of_mem p hq)
    constructor
    · simp [list_available_volumes, hp, hps.1]
    · have hstep : listCalls (p :: (ps ++ last :: extra))
          = 1 + listCalls (ps ++ last :: extra) := by
        simp [listCalls, hp]
      rw [List.cons_append, hstep, hps.2, List.length_cons]
      omega

end EbsVolumeAuditor

namespace NatGatewayAuditor

theorem list_nat_gateways_pages (last : DescribeNatGatewaysResp)
    (extra : List DescribeNatGatewaysResp) (hlast : tokenTruthy last.nextToken = false) :
    ∀ pre : List DescribeNatGatewaysResp, (∀ p ∈ pre, tokenTruthy p.nextToken = true) →
      list_nat_gateways (pre ++ last :: extra)
          = ((pre ++ [last]).map
              (fun r => r.natGateways.filter (fun g => g.state == "available"))).flatten ∧
        natListCalls (pre ++ last :: extra) = pre.length + 1 := by
  intro pre
  induction pre with
  | nil =>
    intro _
    constructor
    · simp [list_nat_gateways, hlast]
    · simp [natListCalls, hlast]
  | cons p ps ih =>
    intro hpre
    have hp : tokenTruthy p.nextToken = true := hpre p (List.mem_cons_self p ps)
    have hps := ih fun q hq => hpre q (List.mem_cons_of_mem p hq)
    constructor
    · simp [list_nat_gateways, hp, hps.1]
    · have hstep : natListCalls (p :: (ps ++ last :: extra))
          = 1 + natListCalls (ps ++ last :: extra) := by
        simp [natListCalls, hp]
      rw [List.cons_append, hstep, hps.2, List.length_cons]
      omega

end NatGatewayAuditor

/-- C2: for every input list of flagged items, when dry-run is in effect (the
mutating `--apply`/`--apply-tag` flag is absent, i.e. `false`), the mutating
action callable is never invoked — the invocation lists are empty and the
batch stop call is not made — and every returned per-item record has its
attempted fields equal to `false`, in both the EBS unattached-volume auditor
and the EC2 idle-instance auditor. -/
theorem c2_dry_run_invariant (maxApply : Nat) (olderThan : Option Int)
    (needed : List (String × String)) (now : Int) (deleteVolume : String → Option String)
    (vols : List EbsVolumeAuditor.Volume) (operated : Nat)
    (maxTag maxStop : Nat) (confirmStop : Bool) (tagInstance : String → Option String)
    (ids : List String) (tagged stopped : Nat)
    (stopInstances : List String → Option String) (toStop : List String)
    (recs : List Ec2IdleAuditor.InstanceRec) :
    ((EbsVolumeAuditor.processVolumes ⟨false, maxApply, olderThan, needed⟩ now deleteVolume
        vols operated).2.2 = [] ∧
      ∀ r ∈ (EbsVolumeAuditor.processVolumes ⟨false, maxApply, olderThan, needed⟩ now
          deleteVolume vols operated).1, r.delete_attempted = false) ∧
    ((Ec2IdleAuditor.instanceLoop ⟨false, maxTag, false, confirmStop, maxStop⟩ tagInstance
        ids tagged stopped).2.2.1 = [] ∧
      ∀ r ∈ (Ec2IdleAuditor.instanceLoop ⟨false, maxTag, false, confirmStop, maxStop⟩
          tagInstance ids tagged stopped).1,
        r.tag_attempted = false ∧ r.stop_attempted = false) ∧
    Ec2IdleAuditor.regionStopBatch ⟨false, maxTag, false, confirmStop, maxStop⟩ stopInstances
        toStop stopped recs = (recs, stopped, none) :=
  ⟨EbsVolumeAuditor.processVolumes_dry_run maxApply olderThan needed now deleteVolume
      vols operated,
   Ec2IdleAuditor.instanceLoop_dry_run maxTag maxStop confirmStop tagInstance
      ids tagged stopped,
   Ec2IdleAuditor.regionStopBatch_dry_run maxTag maxStop confirmStop stopInstances
      toStop stopped recs⟩

/-- C1 counterexample: in the EC2 idle-instance auditor's tag-remediation
loop (`tagged` is incremented only when `tag_instance` returns no error,
lines 239-244), a flagged-item list of length 2 with cap `max_tag = 1` and
an action that always fails ends up with 2 records having
`tag_attempted = True` — more than the cap — so the claim as stated is
false. -/
theorem c1_counterexample :
    ¬((Ec2IdleAuditor.instanceLoop ⟨true, 1, false, false, 5⟩
        (fun _ => some "AccessDenied") ["i-1", "i-2"] 0 0).1.countP
          (fun r => r.tag_attempted) ≤ 1) := by decide

/-- C1 (amended): cap enforcement differs by cap-accounting policy.  The EBS
unattached-volume auditor increments `operated` on every attempt
(line 211), so with cap M it produces exactly `min M L` records with
`delete_attempted = True` over the L flagged volumes and the remaining ones
appear with `delete_attempted = False`.  The EC2 idle-instance auditor and
the ECR repository auditor increment their counters only on success, so for
them at most M items end up attempted *with success* (`error = None`); the
bound on attempted items themselves holds whenever every invoked action
succeeds. -/
theorem c1_cap_enforcement_amended
    (maxApply : Nat) (olderThan : Option Int) (needed : List (String × String))
    (now : Int) (del : String → Option String) (vols : List EbsVolumeAuditor.Volume)
    (ec2args : Ec2IdleAuditor.Ec2Args) (tagI tagJ : String → Option String)
    (ids : List String) (hsucc : ∀ i, tagJ i = none)
    (ecrargs : EcrRepositoryAuditor.EcrArgs) (addTag deleteRepo : String → Option String)
    (repos : List EcrRepositoryAuditor.FlaggedRepo) :
    ((EbsVolumeAuditor.processVolumes ⟨true, maxApply, olderThan, needed⟩ now del vols 0).1.length
        = vols.countP
            (fun v => EbsVolumeAuditor.passesFilters ⟨true, maxApply, olderThan, needed⟩ now v) ∧
      (EbsVolumeAuditor.processVolumes ⟨true, maxApply, olderThan, needed⟩ now del
          vols 0).1.countP (fun r => r.delete_attempted)
        = min maxApply
            (EbsVolumeAuditor.processVolumes ⟨true, maxApply, olderThan, needed⟩ now del
              vols 0).1.length ∧
      (EbsVolumeAuditor.processVolumes ⟨true, maxApply, olderThan, needed⟩ now del
          vols 0).1.countP (fun r => !r.delete_attempted)
        = (EbsVolumeAuditor.processVolumes ⟨true, maxApply, olderThan, needed⟩ now del
            vols 0).1.length
          - min maxApply
              (EbsVolumeAuditor.processVolumes ⟨true, maxApply, olderThan, needed⟩ now del
                vols 0).1.length) ∧
    (Ec2IdleAuditor.instanceLoop ec2args tagI ids 0 0).1.countP
        (fun r => r.tag_attempted && (r.tag_error == none)) ≤ ec2args.max_tag ∧
    (Ec2IdleAuditor.instanceLoop ec2args tagJ ids 0 0).1.countP
        (fun r => r.tag_attempted) ≤ ec2args.max_tag ∧
    (EcrRepositoryAuditor.remediateRepos ecrargs addTag deleteRepo repos 0 0).1.countP
        (fun r => r.tag_attempted && (r.tag_error == none)) ≤ ecrargs.max_apply ∧
    (EcrRepositoryAuditor.remediateRepos ecrargs addTag deleteRepo repos 0 0).1.countP
        (fun r => r.delete_attempted && (r.delete_error == none)) ≤ ecrargs.max_delete := by
  have hlen := EbsVolumeAuditor.processVolumes_length ⟨true, maxApply, olderThan, needed⟩
    now del vols 0
  have hatt := EbsVolumeAuditor.processVolumes_attempted_count maxApply olderThan needed
    now del vols 0
  have hnot := countP_not_eq (fun r : EbsVolumeAuditor.VolumeRec => r.delete_attempted)
    (EbsVolumeAuditor.processVolumes ⟨true, maxApply, olderThan, needed⟩ now del vols 0).1
  have h2 := Ec2IdleAuditor.instanceLoop_success_count ec2args tagI ids 0 0
  have h3 := Ec2IdleAuditor.instanceLoop_attempted_succeeds ec2args tagJ hsucc ids 0 0
  have h4 := EcrRepositoryAuditor.remediateRepos_tag_success_count ecrargs addTag deleteRepo
    repos 0 0
  have h5 := EcrRepositoryAuditor.remediateRepos_delete_success_count ecrargs addTag
    deleteRepo repos 0 0
  refine ⟨⟨hlen, ?_, ?_⟩, by simpa using h2, by simpa using h3, by simpa using h4,
    by simpa using h5⟩
  · rw [hatt, hlen]
    omega
  · rw [hnot, hatt, hlen]
    omega

/-- C1 witness: the amended bounds instantiated at concrete inputs — a
two-volume EBS run with cap 1 and a failing delete, and an EC2 tag loop with
cap 1 and an always-succeeding action. -/
theorem c1_cap_enforcement_amended_witness :
    (∀ i : String, (fun (_ : String) => (none : Option String)) i = none) ∧
    (Ec2IdleAuditor.instanceLoop ⟨true, 1, false, false, 5⟩ (fun _ => none)
        ["i-1", "i-2"] 0 0).1.countP (fun r => r.tag_attempted) ≤ 1 ∧
    (EbsVolumeAuditor.processVolumes ⟨true, 1, none, []⟩ 0 (fun _ => some "err")
        [⟨"v1", "available", none, 1, []⟩, ⟨"v2", "available", none, 2, []⟩] 0).1.countP
      (fun r => r.delete_attempted)
      = min 1
          (EbsVolumeAuditor.processVolumes ⟨true, 1, none, []⟩ 0 (fun _ => some "err")
            [⟨"v1", "available", none, 1, []⟩, ⟨"v2", "available", none, 2, []⟩] 0).1.length :=
  ⟨fun i => rfl,
   (c1_cap_enforcement_amended 1 none [] 0 (fun _ => some "err")
      [⟨"v1", "available", none, 1, []⟩, ⟨"v2", "available", none, 2, []⟩]
      ⟨true, 1, false, false, 5⟩ (fun _ => some "e") (fun _ => none) ["i-1", "i-2"]
      (fun i => rfl) ⟨true, 1, true, 1⟩ (fun _ => some "e") (fun _ => some "e")
      []).2.2.1,
   (c1_cap_enforcement_amended 1 none [] 0 (fun _ => some "err")
      [⟨"v1", "available", none, 1, []⟩, ⟨"v2", "available", none, 2, []⟩]
      ⟨true, 1, false, false, 5⟩ (fun _ => some "e") (fun _ => none) ["i-1", "i-2"]
      (fun i => rfl) ⟨true, 1, true, 1⟩ (fun _ => some "e") (fun _ => some "e")
      []).1.2.1⟩

/-- C3 counterexample: the EC2 idle-instance auditor's `cw_avg_metric`
returns `None` — not the numeric default `0.0` — when the backend responds
with zero datapoints, so the claim as stated is false for that cited
metric-fetch function. -/
theorem c3_counterexample :
    Ec2IdleAuditor.cw_avg_metric (Except.ok []) = none := rfl

/-- C3 (amended): the NAT-gateway auditor's metric fetchers return the
numeric default `0.0` (never raising, by totality) both on zero datapoints
and on a thrown backend call, while the EC2 idle-instance auditor's fetchers
return `None` in exactly those two situations. -/
theorem c3_missing_metric_defaulting_amended :
    (∀ e : String, NatGatewayAuditor.cw_sum_metric (Except.error e) = 0) ∧
    NatGatewayAuditor.cw_sum_metric (Except.ok []) = 0 ∧
    (∀ e : String, NatGatewayAuditor.cw_avg_metric (Except.error e) = 0) ∧
    NatGatewayAuditor.cw_avg_metric (Except.ok []) = 0 ∧
    (∀ e : String, Ec2IdleAuditor.cw_avg_metric (Except.error e) = none) ∧
    Ec2IdleAuditor.cw_avg_metric (Except.ok []) = none ∧
    (∀ e : String, Ec2IdleAuditor.cw_sum_metric (Except.error e) = none) ∧
    Ec2IdleAuditor.cw_sum_metric (Except.ok []) = none :=
  ⟨fun _ => rfl, rfl, fun _ => rfl, rfl, fun _ => rfl, rfl, fun _ => rfl, rfl⟩

/-- C4: whenever an instance loop iteration reaches line 215 with
`metrics_missing` truthy, evaluating the guard
`metrics_missing and not args.treat-missing-metrics-idle` raises
`AttributeError` on `args.treat` — regardless of the value of the actual
`treat_missing_metrics_idle` flag, which the namespace does hold while no
`treat` attribute exists — so the documented treat-missing-metrics handling
is non-functional as written. -/
theorem c4_treat_missing_metrics_flag_bug (tv : Bool) (lv : List (String × Int))
    (hmm : Ec2IdleAuditor.lookupName lv "metrics_missing" = some 1) :
    Ec2IdleAuditor.PyExpr.eval ⟨Ec2IdleAuditor.ec2ArgsFields tv, lv⟩
        Ec2IdleAuditor.line215Guard
      = Except.error "AttributeError: Namespace object has no attribute treat" ∧
    Ec2IdleAuditor.lookupName (Ec2IdleAuditor.ec2ArgsFields tv) "treat" = none ∧
    Ec2IdleAuditor.lookupName (Ec2IdleAuditor.ec2ArgsFields tv)
        "treat_missing_metrics_idle" = some (if tv then 1 else 0) := by
  refine ⟨?_, by cases tv <;> rfl, by cases tv <;> rfl⟩
  cases tv <;>
  · simp only [Ec2IdleAuditor.line215Guard, Ec2IdleAuditor.PyExpr.eval, hmm]
    rfl

/-- C4 witness: the guard evaluation at a concrete scope where
`metrics_missing` is bound to a truthy value. -/
theorem c4_treat_missing_metrics_flag_bug_witness :
    Ec2IdleAuditor.lookupName [("metrics_missing", (1 : Int))] "metrics_missing" = some 1 ∧
    Ec2IdleAuditor.PyExpr.eval ⟨Ec2IdleAuditor.ec2ArgsFields true, [("metrics_missing", 1)]⟩
        Ec2IdleAuditor.line215Guard
      = Except.error "AttributeError: Namespace object has no attribute treat" :=
  ⟨rfl, (c4_treat_missing_metrics_flag_bug true [("metrics_missing", 1)] rfl).1⟩

/-- C5: pagination completeness — on a response stream whose first
token-less response is at position `pre.length`, the EBS volume listing loop
returns exactly the concatenation of those pages' volume lists in order, the
NAT-gateway listing loop returns exactly the concatenation of those pages'
`available`-state gateways in order, and both loops stop with their call
made for the first token-less response, issuing `pre.length + 1` calls (one
per page, so no page is read twice and none is skipped; `extra` responses
past the stop are never requested). -/
theorem c5_pagination_completeness
    (pre : List EbsVolumeAuditor.DescribeVolumesResp)
    (last : EbsVolumeAuditor.DescribeVolumesResp)
    (extra : List EbsVolumeAuditor.DescribeVolumesResp)
    (hpre : ∀ p ∈ pre, tokenTruthy p.nextToken = true)
    (hlast : tokenTruthy last.nextToken = false)
    (npre : List NatGatewayAuditor.DescribeNatGatewaysResp)
    (nlast : NatGatewayAuditor.DescribeNatGatewaysResp)
    (nextra : List NatGatewayAuditor.DescribeNatGatewaysResp)
    (hnpre : ∀ p ∈ npre, tokenTruthy p.nextToken = true)
    (hnlast : tokenTruthy nlast.nextToken = false) :
    (EbsVolumeAuditor.list_available_volumes (pre ++ last :: extra)
        = ((pre ++ [last]).map (fun r => r.volumes)).flatten ∧
      EbsVolumeAuditor.listCalls (pre ++ last :: extra) = pre.length + 1) ∧
    (NatGatewayAuditor.list_nat_gateways (npre ++ nlast :: nextra)
        = ((npre ++ [nlast]).map
            (fun r => r.natGateways.filter (fun g => g.state == "available"))).flatten ∧
      NatGatewayAuditor.natListCalls (npre ++ nlast :: nextra) = npre.length + 1) :=
  ⟨EbsVolumeAuditor.list_available_volumes_pages last extra hlast pre hpre,
   NatGatewayAuditor.list_nat_gateways_pages nlast nextra hnlast npre hnpre⟩

/-- C5 witness: a two-page volume stream followed by a never-requested junk
response, and a two-page NAT-gateway stream mixing `available` and other
states. -/
theorem c5_pagination_completeness_witness :
    EbsVolumeAuditor.list_available_volumes
        [⟨[⟨"v1", "available", none, 1, []⟩], some "t1"⟩,
         ⟨[⟨"v2", "available", none, 2, []⟩], none⟩,
         ⟨[⟨"junk", "available", none, 3, []⟩], some "t9"⟩]
      = [⟨"v1", "available", none, 1, []⟩, ⟨"v2", "available", none, 2, []⟩] ∧
    EbsVolumeAuditor.listCalls
        [⟨[⟨"v1", "available", none, 1, []⟩], some "t1"⟩,
         ⟨[⟨"v2", "available", none, 2, []⟩], none⟩,
         ⟨[⟨"junk", "available", none, 3, []⟩], some "t9"⟩] = 2 ∧
    NatGatewayAuditor.list_nat_gateways
        [⟨[⟨"n1", "available"⟩, ⟨"n2", "pending"⟩], some "t1"⟩, ⟨[⟨"n3", "available"⟩], none⟩]
      = [⟨"n1", "available"⟩, ⟨"n3", "available"⟩] ∧
    NatGatewayAuditor.natListCalls
        [⟨[⟨"n1", "available"⟩, ⟨"n2", "pending"⟩], some "t1"⟩, ⟨[⟨"n3", "available"⟩], none⟩]
      = 2 := by
  have h := c5_pagination_completeness
    [⟨[⟨"v1", "available", none, 1, []⟩], some "t1"⟩]
    ⟨[⟨"v2", "available", none, 2, []⟩], none⟩
    [⟨[⟨"junk", "available", none, 3, []⟩], some "t9"⟩]
    (by decide) (by decide)
    [⟨[⟨"n1", "available"⟩, ⟨"n2", "pending"⟩], some "t1"⟩]
    ⟨[⟨"n3", "available"⟩], none⟩ []
    (by decide) (by decide)
  refine ⟨?_, ?_, ?_, ?_⟩
  · exact h.1.1.trans (by decide)
  · exact h.1.2
  · exact h.2.1.trans (by decide)
  · exact h.2.2

/-- C6: the ALL-combinator classifications of the EC2 idle-instance auditor
(line 222) and the NAT-gateway auditor (line 218) flag a resource exactly
when every observation is on the idle side (`<=`) of its threshold, and any
single observation strictly above its threshold makes the classification
false. -/
theorem c6_all_combinator_classification
    (cpu maxCpu net maxNet tb minB conn maxConn : Rat) :
    (Ec2IdleAuditor.isIdle cpu maxCpu net maxNet = true ↔ cpu ≤ maxCpu ∧ net ≤ maxNet) ∧
    (cpu > maxCpu → Ec2IdleAuditor.isIdle cpu maxCpu net maxNet = false) ∧
    (net > maxNet → Ec2IdleAuditor.isIdle cpu maxCpu net maxNet = false) ∧
    (NatGatewayAuditor.is_idle tb minB conn maxConn = true ↔ tb ≤ minB ∧ conn ≤ maxConn) ∧
    (tb > minB → NatGatewayAuditor.is_idle tb minB conn maxConn = false) ∧
    (conn > maxConn → NatGatewayAuditor.is_idle tb minB conn maxConn = false) := by
  refine ⟨by simp [Ec2IdleAuditor.isIdle], ?_, ?_, by simp [NatGatewayAuditor.is_idle], ?_, ?_⟩
  · intro h
    have hn : ¬(cpu ≤ maxCpu) := not_le.mpr h
    simp [Ec2IdleAuditor.isIdle, hn]
  · intro h
    have hn : ¬(net ≤ maxNet) := not_le.mpr h
    simp [Ec2IdleAuditor.isIdle, hn]
  · intro h
    have hn : ¬(tb ≤ minB) := not_le.mpr h
    simp [NatGatewayAuditor.is_idle, hn]
  · intro h
    have hn : ¬(conn ≤ maxConn) := not_le.mpr h
    simp [NatGatewayAuditor.is_idle, hn]

/-- C6 witness: the spec's example — observations 2 and 3 against thresholds
5 and 5 flag the resource, and raising either observation above its
threshold flips the result. -/
theorem c6_all_combinator_classification_witness :
    Ec2IdleAuditor.isIdle 2 5 3 5 = true ∧
    Ec2IdleAuditor.isIdle 6 5 3 5 = false ∧
    Ec2IdleAuditor.isIdle 2 5 6 5 = false :=
  ⟨(c6_all_combinator_classification 2 5 3 5 0 0 0 0).1.mpr
      ⟨by norm_num, by norm_num⟩,
   (c6_all_combinator_classification 6 5 3 5 0 0 0 0).2.1 (by norm_num),
   (c6_all_combinator_classification 2 5 6 5 0 0 0 0).2.2.1 (by norm_num)⟩

/-- C7: end-to-end idle-volume scenario — with a describe-volumes content of
three volumes (two `available` aged 10 and 2 days, one `in-use` aged 30
days) and `--older-than-days 7`, the unattached-volume auditor's pipeline
(server-side status filter, then the tag/age filters of `main`) flags
exactly the first volume. -/
theorem c7_end_to_end_idle_volume_scenario :
    ((EbsVolumeAuditor.processVolumes EbsVolumeAuditor.scenarioArgs
        EbsVolumeAuditor.scenarioNow (fun _ => none)
        (EbsVolumeAuditor.statusAvailableFilter EbsVolumeAuditor.scenarioVolumes) 0).1.map
      (fun r => r.volume_id)) = ["vol-1"] ∧
    ((EbsVolumeAuditor.processVolumes EbsVolumeAuditor.scenarioArgs
        EbsVolumeAuditor.scenarioNow (fun _ => none)
        (EbsVolumeAuditor.statusAvailableFilter EbsVolumeAuditor.scenarioVolumes) 0).1.map
      (fun r => r.ageDays)) = [some 10] := by decide

/-- C8: region resolution — a non-empty explicit region list is returned
unchanged; an absent or empty explicit list routes to the
`describe_regions` backend, whose success yields its region names sorted
and whose exception yields the single-element fallback `["us-east-1"]`;
totality of `discover_regions` means no error ever reaches the caller. -/
theorem c8_region_resolver (r : String) (rs : List String)
    (b : Except String (List String)) (e : String) (names : List String) :
    EbsVolumeAuditor.discover_regions (some (r :: rs)) b = r :: rs ∧
    EbsVolumeAuditor.discover_regions none (Except.error e) = ["us-east-1"] ∧
    EbsVolumeAuditor.discover_regions (some []) (Except.error e) = ["us-east-1"] ∧
    EbsVolumeAuditor.discover_regions none (Except.ok names)
      = names.mergeSort (fun a b => decide (a ≤ b)) ∧
    EbsVolumeAuditor.discover_regions (some []) (Except.ok names)
      = names.mergeSort (fun a b => decide (a ≤ b)) :=
  ⟨rfl, rfl, rfl, rfl, rfl⟩

/-- C10: in the EBS unattached-volume auditor, the `--older-than-days`
filter only excludes volumes of known age — a listed volume whose record
lacks `CreateTime` (so `age_days` is `None`) passes the age filter and
appears in the findings for every value of `--older-than-days`, provided it
passes the tag filter. -/
theorem c10_missing_createtime_included (args : EbsVolumeAuditor.Args) (now : Int)
    (del : String → Option String) (vols : List EbsVolumeAuditor.Volume)
    (operated : Nat) (v : EbsVolumeAuditor.Volume) (hv : v ∈ vols)
    (hct : v.createTime = none)
    (ht : EbsVolumeAuditor.matches_required v args.required_tag = true) :
    ∃ r ∈ (EbsVolumeAuditor.processVolumes args now del vols operated).1,
      r.volume_id = v.volumeId ∧ r.ageDays = none := by
  induction vols generalizing operated with
  | nil => cases hv
  | cons w ws ih =>
    rcases List.mem_cons.mp hv with heq | hmem
    · subst heq
      have hskip : EbsVolumeAuditor.skipByAge args.older_than_days
          (EbsVolumeAuditor.age_days now v.createTime) = false := by
        rw [hct]
        exact EbsVolumeAuditor.skipByAge_none_age _
      by_cases h3 : args.apply && decide (operated < args.max_apply)
      · have hstep : (EbsVolumeAuditor.processVolumes args now del (v :: ws) operated).1
            = { volume_id := v.volumeId, size_gb := v.size,
                ageDays := EbsVolumeAuditor.age_days now v.createTime,
                delete_attempted := true, delete_error := del v.volumeId }
              :: (EbsVolumeAuditor.processVolumes args now del ws (operated + 1)).1 := by
          simp [EbsVolumeAuditor.processVolumes, ht, hskip, h3]
        rw [hstep]
        exact ⟨_, List.mem_cons_self _ _, rfl, by rw [hct]; rfl⟩
      · have hstep : (EbsVolumeAuditor.processVolumes args now del (v :: ws) operated).1
            = { volume_id := v.volumeId, size_gb := v.size,
                ageDays := EbsVolumeAuditor.age_days now v.createTime,
                delete_attempted := false, delete_error := none }
              :: (EbsVolumeAuditor.processVolumes args now del ws operated).1 := by
          simp [EbsVolumeAuditor.processVolumes, ht, hskip, h3]
        rw [hstep]
        exact ⟨_, List.mem_cons_self _ _, rfl, by rw [hct]; rfl⟩
    · by_cases h1 : EbsVolumeAuditor.matches_required w args.required_tag
      · by_cases h2 : EbsVolumeAuditor.skipByAge args.older_than_days
            (EbsVolumeAuditor.age_days now w.createTime)
        · have := ih operated hmem
          simpa [EbsVolumeAuditor.processVolumes, h1, h2] using this
        · by_cases h3 : args.apply && decide (operated < args.max_apply)
          · obtain ⟨r, hr, hprop⟩ := ih (operated + 1) hmem
            refine ⟨r, ?_, hprop⟩
            simp only [EbsVolumeAuditor.processVolumes, h1, h2, h3, Bool.not_true,
              Bool.false_eq_true, if_false, if_true]
            exact List.mem_cons_of_mem _ hr
          · obtain ⟨r, hr, hprop⟩ := ih operated hmem
            refine ⟨r, ?_, hprop⟩
            simp only [EbsVolumeAuditor.processVolumes, h1, h2, h3, Bool.not_true,
              Bool.false_eq_true, if_false, if_true]
            exact List.mem_cons_of_mem _ hr
      · have := ih operated hmem
        simpa [EbsVolumeAuditor.processVolumes, h1] using this

namespace PyJson

theorem toNat_ofNat_valid (n : Nat) (h : n.isValidChar) : (Char.ofNat n).toNat = n := by
  simp only [Char.ofNat]
  rw [dif_pos h]
  rfl

theorem hexVal?_hexDigitChar (k : Nat) (hk : k < 16) :
    hexVal? (hexDigitChar k) = some k := by
  interval_cases k <;> rfl

theorem psb_close (f : Nat) (r : List Char) :
    parseStringBody (f + 1) ('"' :: r) = some ([], r) := by
  simp [parseStringBody]

theorem psb_esc (f : Nat) (e ch : Char) (hd : decodeSimpleEscape e = some ch)
    (hne : ¬(e = 'u')) (r : List Char) :
    parseStringBody (f + 1) ('\\' :: e :: r)
      = match parseStringBody f r with
        | some (s, t) => some (ch :: s, t)
        | none => none := by
  simp [parseStringBody, hne, hd]

theorem psb_plain (f : Nat) (c : Char) (h1 : ¬(c = '"')) (h2 : ¬(c = '\\'))
    (r : List Char) :
    parseStringBody (f + 1) (c :: r)
      = match parseStringBody f r with
        | some (s, t) => some (c :: s, t)
        | none => none := by
  simp [parseStringBody, h1, h2]

theorem readHex4_spec (a b c' d : Char) (ha hb hc hd : Nat)
    (ea : hexVal? a = some ha) (eb : hexVal? b = some hb) (ec : hexVal? c' = some hc)
    (ed : hexVal? d = some hd) (r : List Char) :
    readHex4 (a :: b :: c' :: d :: r)
      = some (4096 * ha + 256 * hb + 16 * hc + hd, r) := by
  simp [readHex4, ea, eb, ec, ed]

theorem psb_u_bmp (f : Nat) (a b c' d : Char) (ha hb hc hd : Nat)
    (ea : hexVal? a = some ha) (eb : hexVal? b = some hb) (ec : hexVal? c' = some hc)
    (ed : hexVal? d = some hd)
    (hs1 : ¬(55296 ≤ 4096 * ha + 256 * hb + 16 * hc + hd ∧
      4096 * ha + 256 * hb + 16 * hc + hd ≤ 56319))
    (hs2 : ¬(56320 ≤ 4096 * ha + 256 * hb + 16 * hc + hd ∧
      4096 * ha + 256 * hb + 16 * hc + hd ≤ 57343)) (r : List Char) :
    parseStringBody (f + 1) ('\\' :: 'u' :: a :: b :: c' :: d :: r)
      = match parseStringBody f r with
        | some (s, t) => some (Char.ofNat (4096 * ha + 256 * hb + 16 * hc + hd) :: s, t)
        | none => none := by
  simp [parseStringBody, readHex4_spec a b c' d ha hb hc hd ea eb ec ed, hs1, hs2]

theorem psb_u_pair (f : Nat) (a b c' d a2 b2 c2 d2 : Char)
    (ha hb hc hd ha2 hb2 hc2 hd2 : Nat)
    (ea : hexVal? a = some ha) (eb : hexVal? b = some hb) (ec : hexVal? c' = some hc)
    (ed : hexVal? d = some hd) (ea2 : hexVal? a2 = some ha2) (eb2 : hexVal? b2 = some hb2)
    (ec2 : hexVal? c2 = some hc2) (ed2 : hexVal? d2 = some hd2)
    (hhi : 55296 ≤ 4096 * ha + 256 * hb + 16 * hc + hd ∧
      4096 * ha + 256 * hb + 16 * hc + hd ≤ 56319)
    (hlo : 56320 ≤ 4096 * ha2 + 256 * hb2 + 16 * hc2 + hd2 ∧
      4096 * ha2 + 256 * hb2 + 16 * hc2 + hd2 ≤ 57343) (r : List Char) :
    parseStringBody (f + 1)
        ('\\' :: 'u' :: a :: b :: c' :: d :: '\\' :: 'u' :: a2 :: b2 :: c2 :: d2 :: r)
      = match parseStringBody f r with
        | some (s, t) =>
          some (Char.ofNat (65536 + (4096 * ha + 256 * hb + 16 * hc + hd - 55296) * 1024
            + (4096 * ha2 + 256 * hb2 + 16 * hc2 + hd2 - 56320)) :: s, t)
        | none => none := by
  have hsur : readLowSurrogate ('\\' :: 'u' :: a2 :: b2 :: c2 :: d2 :: r)
      = some (4096 * ha2 + 256 * hb2 + 16 * hc2 + hd2, r) := by
    simp [readLowSurrogate, parseLit,
      readHex4_spec a2 b2 c2 d2 ha2 hb2 hc2 hd2 ea2 eb2 ec2 ed2, hlo]
  simp [parseStringBody, readHex4_spec a b c' d ha hb hc hd ea eb ec ed, hhi, hsur]

theorem parseStringBody_escape (s : List Char) : ∀ (fuel : Nat) (rest : List Char),
    s.length < fuel →
    parseStringBody fuel ((s.map escapeChar).flatten ++ '"' :: rest) = some (s, rest) := by
  induction s with
  | nil =>
    intro fuel rest hf
    cases fuel with
    | zero => omega
    | succ f =>
      simp only [List.map_nil, List.flatten_nil, List.nil_append]
      exact psb_close f rest
  | cons c cs ih =>
    intro fuel rest hf
    cases fuel with
    | zero => omega
    | succ f =>
      have hfs : cs.length < f := by
        simp only [List.length_cons] at hf
        omega
      have ihf := ih f rest hfs
      have hval : c.toNat < 55296 ∨ (57343 < c.toNat ∧ c.toNat < 1114112) := c.valid
      simp only [List.map_cons, List.flatten_cons, List.append_assoc]
      by_cases h1 : c = '"'
      · subst h1
        rw [show escapeChar '"' = ['\\', '"'] from rfl]
        rw [List.cons_append, List.cons_append, List.nil_append,
          psb_esc f '"' '"' rfl (by decide), ihf]
      · by_cases h2 : c = '\\'
        · subst h2
          rw [show escapeChar '\\' = ['\\', '\\'] from rfl]
          rw [List.cons_append, List.cons_append, List.nil_append,
            psb_esc f '\\' '\\' rfl (by decide), ihf]
        · by_cases h3 : c = '\n'
          · subst h3
            rw [show escapeChar '\n' = ['\\', 'n'] from rfl]
            rw [List.cons_append, List.cons_append, List.nil_append,
              psb_esc f 'n' '\n' rfl (by decide), ihf]
          · by_cases h4 : c = '\r'
            · subst h4
              rw [show escapeChar '\r' = ['\\', 'r'] from rfl]
              rw [List.cons_append, List.cons_append, List.nil_append,
                psb_esc f 'r' '\r' rfl (by decide), ihf]
            · by_cases h5 : c = '\t'
              · subst h5
                rw [show escapeChar '\t' = ['\\', 't'] from rfl]
                rw [List.cons_append, List.cons_append, List.nil_append,
                  psb_esc f 't' '\t' rfl (by decide), ihf]
              · by_cases h6 : c.toNat = 8
                · have hc : Char.ofNat 8 = c := by rw [← h6]; exact Char.ofNat_toNat c
                  have hesc : escapeChar c = ['\\', 'b'] := by
                    simp [escapeChar, h1, h2, h3, h4, h5, h6]
                  rw [hesc, List.cons_append, List.cons_append, List.nil_append,
                    psb_esc f 'b' (Char.ofNat 8) rfl (by decide), ihf, hc]
                · by_cases h7 : c.toNat = 12
                  · have hc : Char.ofNat 12 = c := by rw [← h7]; exact Char.ofNat_toNat c
                    have hesc : escapeChar c = ['\\', 'f'] := by
                      simp [escapeChar, h1, h2, h3, h4, h5, h6, h7]
                    rw [hesc, List.cons_append, List.cons_append, List.nil_append,
                      psb_esc f 'f' (Char.ofNat 12) rfl (by decide), ihf, hc]
                  · by_cases h8 : 32 ≤ c.toNat ∧ c.toNat ≤ 126
                    · have hesc : escapeChar c = [c] := by
                        simp [escapeChar, h1, h2, h3, h4, h5, h6, h7, h8]
                      rw [hesc, List.cons_append, List.nil_append,
                        psb_plain f c h1 h2, ihf]
                    · by_cases h9 : c.toNat < 65536
                      · have hesc : escapeChar c = '\\' :: 'u' :: hex4 c.toNat := by
                          simp [escapeChar, h1, h2, h3, h4, h5, h6, h7, h8, h9]
                        have e1 := hexVal?_hexDigitChar (c.toNat / 4096 % 16)
                          (Nat.mod_lt _ (by norm_num))
                        have e2 := hexVal?_hexDigitChar (c.toNat / 256 % 16)
                          (Nat.mod_lt _ (by norm_num))
                        have e3 := hexVal?_hexDigitChar (c.toNat / 16 % 16)
                          (Nat.mod_lt _ (by norm_num))
                        have e4 := hexVal?_hexDigitChar (c.toNat % 16)
                          (Nat.mod_lt _ (by norm_num))
                        have hN : 4096 * (c.toNat / 4096 % 16) + 256 * (c.toNat / 256 % 16)
                            + 16 * (c.toNat / 16 % 16) + c.toNat % 16 = c.toNat := by omega
                        have hs1 : ¬(55296 ≤ 4096 * (c.toNat / 4096 % 16)
                            + 256 * (c.toNat / 256 % 16) + 16 * (c.toNat / 16 % 16)
                            + c.toNat % 16 ∧ 4096 * (c.toNat / 4096 % 16)
                            + 256 * (c.toNat / 256 % 16) + 16 * (c.toNat / 16 % 16)
                            + c.toNat % 16 ≤ 56319) := by
                          rw [hN]
                          rcases hval with hA | hB <;> omega
                        have hs2 : ¬(56320 ≤ 4096 * (c.toNat / 4096 % 16)
                            + 256 * (c.toNat / 256 % 16) + 16 * (c.toNat / 16 % 16)
                            + c.toNat % 16 ∧ 4096 * (c.toNat / 4096 % 16)
                            + 256 * (c.toNat / 256 % 16) + 16 * (c.toNat / 16 % 16)
                            + c.toNat % 16 ≤ 57343) := by
                          rw [hN]
                          rcases hval with hA | hB <;> omega
                        rw [hesc, hex4]
                        simp only [List.cons_append, List.nil_append]
                        rw [psb_u_bmp f _ _ _ _ _ _ _ _ e1 e2 e3 e4 hs1 hs2, ihf, hN,
                          Char.ofNat_toNat]
                      · have hB : 57343 < c.toNat ∧ c.toNat < 1114112 := by
                          rcases hval with hA | hB
                          · omega
                          · exact hB
                        have hesc : escapeChar c
                            = ('\\' :: 'u' :: hex4 (55296 + (c.toNat - 65536) / 1024)) ++
                                ('\\' :: 'u' :: hex4 (56320 + (c.toNat - 65536) % 1024)) := by
                          simp [escapeChar, h1, h2, h3, h4, h5, h6, h7, h8, h9]
                        have e1 := hexVal?_hexDigitChar
                          ((55296 + (c.toNat - 65536) / 1024) / 4096 % 16)
                          (Nat.mod_lt _ (by norm_num))
                        have e2 := hexVal?_hexDigitChar
                          ((55296 + (c.toNat - 65536) / 1024) / 256 % 16)
                          (Nat.mod_lt _ (by norm_num))
                        have e3 := hexVal?_hexDigitChar
                          ((55296 + (c.toNat - 65536) / 1024) / 16 % 16)
                          (Nat.mod_lt _ (by norm_num))
                        have e4 := hexVal?_hexDigitChar ((55296 + (c.toNat - 65536) / 1024) % 16)
                          (Nat.mod_lt _ (by norm_num))
                        have f1 := hexVal?_hexDigitChar
                          ((56320 + (c.toNat - 65536) % 1024) / 4096 % 16)
                          (Nat.mod_lt _ (by norm_num))
                        have f2 := hexVal?_hexDigitChar
                          ((56320 + (c.toNat - 65536) % 1024) / 256 % 16)
                          (Nat.mod_lt _ (by norm_num))
                        have f3 := hexVal?_hexDigitChar
                          ((56320 + (c.toNat - 65536) % 1024) / 16 % 16)
                          (Nat.mod_lt _ (by norm_num))
                        have f4 := hexVal?_hexDigitChar ((56320 + (c.toNat - 65536) % 1024) % 16)
                          (Nat.mod_lt _ (by norm_num))
                        have hN1 : 4096 * ((55296 + (c.toNat - 65536) / 1024) / 4096 % 16)
                            + 256 * ((55296 + (c.toNat - 65536) / 1024) / 256 % 16)
                            + 16 * ((55296 + (c.toNat - 65536) / 1024) / 16 % 16)
                            + (55296 + (c.toNat - 65536) / 1024) % 16
                            = 55296 + (c.toNat - 65536) / 1024 := by omega
                        have hN2 : 4096 * ((56320 + (c.toNat - 65536) % 1024) / 4096 % 16)
                            + 256 * ((56320 + (c.toNat - 65536) % 1024) / 256 % 16)
                            + 16 * ((56320 + (c.toNat - 65536) % 1024) / 16 % 16)
                            + (56320 + (c.toNat - 65536) % 1024) % 16
                            = 56320 + (c.toNat - 65536) % 1024 := by omega
                        have hhi : 55296 ≤ 4096 * ((55296 + (c.toNat - 65536) / 1024) / 4096 % 16)
                            + 256 * ((55296 + (c.toNat - 65536) / 1024) / 256 % 16)
                            + 16 * ((55296 + (c.toNat - 65536) / 1024) / 16 % 16)
                            + (55296 + (c.toNat - 65536) / 1024) % 16 ∧
                            4096 * ((55296 + (c.toNat - 65536) / 1024) / 4096 % 16)
                            + 256 * ((55296 + (c.toNat - 65536) / 1024) / 256 % 16)
                            + 16 * ((55296 + (c.toNat - 65536) / 1024) / 16 % 16)
                            + (55296 + (c.toNat - 65536) / 1024) % 16 ≤ 56319 := by
                          rw [hN1]
                          omega
                        have hlo : 56320 ≤ 4096 * ((56320 + (c.toNat - 65536) % 1024) / 4096 % 16)
                            + 256 * ((56320 + (c.toNat - 65536) % 1024) / 256 % 16)
                            + 16 * ((56320 + (c.toNat - 65536) % 1024) / 16 % 16)
                            + (56320 + (c.toNat - 65536) % 1024) % 16 ∧
                            4096 * ((56320 + (c.toNat - 65536) % 1024) / 4096 % 16)
                            + 256 * ((56320 + (c.toNat - 65536) % 1024) / 256 % 16)
                            + 16 * ((56320 + (c.toNat - 65536) % 1024) / 16 % 16)
                            + (56320 + (c.toNat - 65536) % 1024) % 16 ≤ 57343 := by
                          rw [hN2]
                          omega
                        have hcomb : 65536 + (55296 + (c.toNat - 65536) / 1024 - 55296) * 1024
                            + (56320 + (c.toNat - 65536) % 1024 - 56320) = c.toNat := by omega
                        rw [hesc, hex4, hex4]
                        simp only [List.cons_append, List.nil_append, List.append_assoc]
                        rw [psb_u_pair f _ _ _ _ _ _ _ _ _ _ _ _ _ _ _ _
                          e1 e2 e3 e4 f1 f2 f3 f4 hhi hlo, ihf, hN1, hN2, hcomb,
                          Char.ofNat_toNat]

theorem natDigits_ne_nil (n : Nat) : natDigits n ≠ [] := by
  rw [natDigits]
  split
  · simp
  · simp

theorem natDigits_all_digits (n : Nat) : ∀ c ∈ natDigits n, isDigitChar c = true := by
  induction n using Nat.strong_induction_on with
  | _ n ih =>
    rw [natDigits]
    split
    · intro c hc
      simp only [List.mem_singleton] at hc
      subst hc
      have hv : (48 + n).isValidChar := Or.inl (by omega)
      simp only [isDigitChar, toNat_ofNat_valid _ hv]
      simp
      omega
    · intro c hc
      rcases List.mem_append.mp hc with h | h
      · exact ih (n / 10) (by omega) c h
      · simp only [List.mem_singleton] at h
        subst h
        have hv : (48 + n % 10).isValidChar := Or.inl (by omega)
        simp only [isDigitChar, toNat_ofNat_valid _ hv]
        simp
        omega

theorem parseDigits_natDigits (n : Nat) : ∀ (acc : Nat) (rest : List Char),
    parseDigits acc (natDigits n ++ rest)
      = parseDigits (acc * 10 ^ (natDigits n).length + n) rest := by
  induction n using Nat.strong_induction_on with
  | _ n ih =>
    intro acc rest
    rw [natDigits]
    split
    · have hv : (48 + n).isValidChar := Or.inl (by omega)
      have htn : (Char.ofNat (48 + n)).toNat = 48 + n := toNat_ofNat_valid _ hv
      have hd : isDigitChar (Char.ofNat (48 + n)) = true := by
        simp only [isDigitChar, htn]
        simp
        omega
      simp only [List.cons_append, List.nil_append, parseDigits, hd, if_true, htn,
        List.length_singleton]
      have harith : 10 * acc + (48 + n - 48) = acc * 10 ^ 1 + n := by
        simp [pow_one]
        omega
      rw [harith]
      simp
    · have hv : (48 + n % 10).isValidChar := Or.inl (by omega)
      have htn : (Char.ofNat (48 + n % 10)).toNat = 48 + n % 10 := toNat_ofNat_valid _ hv
      have hd : isDigitChar (Char.ofNat (48 + n % 10)) = true := by
        simp only [isDigitChar, htn]
        simp
        omega
      rw [List.append_assoc, ih (n / 10) (by omega), List.cons_append, List.nil_append]
      simp only [parseDigits, hd, if_true, htn, List.length_append, List.length_singleton]
      have harith : 10 * (acc * 10 ^ (natDigits (n / 10)).length + n / 10)
            + (48 + n % 10 - 48)
          = acc * 10 ^ ((natDigits (n / 10)).length + 1) + n := by
        rw [pow_succ]
        have h1 : 48 + n % 10 - 48 = n % 10 := by omega
        rw [h1]
        have h2 : 10 * (acc * 10 ^ (natDigits (n / 10)).length + n / 10)
            = acc * 10 ^ (natDigits (n / 10)).length * 10 + 10 * (n / 10) := by ring
        rw [h2]
        have h3 : acc * (10 ^ (natDigits (n / 10)).length * 10)
            = acc * 10 ^ (natDigits (n / 10)).length * 10 := by ring
        rw [h3]
        omega
      rw [harith]

theorem parseDigits_stop (acc : Nat) (rest : List Char)
    (h : ∀ c cs, rest = c :: cs → isDigitChar c = false) :
    parseDigits acc rest = (acc, rest) := by
  cases rest with
  | nil => rfl
  | cons c cs => simp [parseDigits, h c cs rfl]

theorem parseNat_natDigits (n : Nat) (rest : List Char)
    (h : ∀ c cs, rest = c :: cs → isDigitChar c = false) :
    parseDigits 0 (natDigits n ++ rest) = (n, rest) := by
  rw [parseDigits_natDigits, parseDigits_stop _ _ h]
  simp

theorem digit_not_special (c : Char) (hd : isDigitChar c = true) :
    ¬(c = '"') ∧ ¬(c = '-') ∧ ¬(c = 'n') ∧ ¬(c = 't') ∧ ¬(c = 'f') := by
  refine ⟨?_, ?_, ?_, ?_, ?_⟩ <;> intro he <;> subst he <;> simp [isDigitChar] at hd

theorem isDigitChar_digitChar10 (d : Nat) (h : d < 10) :
    isDigitChar (digitChar10 d) = true := by
  have hv : (48 + d).isValidChar := Or.inl (by omega)
  simp only [digitChar10, isDigitChar, toNat_ofNat_valid _ hv]
  simp
  omega

theorem digitVal_digitChar10 (d : Nat) (h : d < 10) : digitVal (digitChar10 d) = d := by
  have hv : (48 + d).isValidChar := Or.inl (by omega)
  simp only [digitVal, digitChar10, toNat_ofNat_valid _ hv]
  omega

theorem takeDigits_stop (rest : List Char)
    (h : ∀ c cs, rest = c :: cs → isDigitChar c = false) :
    takeDigits rest = ([], rest) := by
  cases rest with
  | nil => rfl
  | cons c cs => simp [takeDigits, h c cs rfl]

theorem takeDigits_digits (ds : List Nat) (hlt : ∀ d ∈ ds, d < 10) (rest : List Char)
    (h : ∀ c cs, rest = c :: cs → isDigitChar c = false) :
    takeDigits (ds.map digitChar10 ++ rest) = (ds, rest) := by
  induction ds with
  | nil => simpa using takeDigits_stop rest h
  | cons d ds2 ih =>
    have hd : d < 10 := hlt d (List.mem_cons_self _ _)
    have ih2 := ih fun x hx => hlt x (List.mem_cons_of_mem _ hx)
    simp only [List.map_cons, List.cons_append, takeDigits,
      isDigitChar_digitChar10 d hd, if_true, digitVal_digitChar10 d hd]
    rw [show List.append (List.map digitChar10 ds2) rest = List.map digitChar10 ds2 ++ rest
      from rfl, ih2]

theorem takeDigits_append_digits (X : List Char) (hX : ∀ c ∈ X, isDigitChar c = true)
    (rest : List Char) :
    takeDigits (X ++ rest)
      = (X.map digitVal ++ (takeDigits rest).1, (takeDigits rest).2) := by
  induction X with
  | nil => simp
  | cons c cs ih =>
    have ih2 := ih fun x hx => hX x (List.mem_cons_of_mem _ hx)
    simp only [List.cons_append, takeDigits, hX c (List.mem_cons_self _ _), if_true,
      List.map_cons]
    rw [show List.append cs rest = cs ++ rest from rfl, ih2]

theorem digitsVal_append_one (xs : List Nat) (d : Nat) :
    digitsVal (xs ++ [d]) = 10 * digitsVal xs + d := by
  simp [digitsVal, List.foldl_append]

theorem digitsVal_natDigits (n : Nat) : digitsVal ((natDigits n).map digitVal) = n := by
  induction n using Nat.strong_induction_on with
  | _ n ih =>
    rw [natDigits]
    split
    · have hv : (48 + n).isValidChar := Or.inl (by omega)
      simp only [List.map_cons, List.map_nil, digitsVal, List.foldl_cons, List.foldl_nil,
        digitVal, toNat_ofNat_valid _ hv]
      omega
    · rw [List.map_append]
      simp only [List.map_cons, List.map_nil]
      rw [digitsVal_append_one, ih (n / 10) (by omega)]
      have hv : (48 + n % 10).isValidChar := Or.inl (by omega)
      simp only [List.map_cons, List.map_nil, digitVal, toNat_ofNat_valid _ hv]
      omega

theorem isNumCont_elim (c : Char) (h : isNumCont c = false) :
    isDigitChar c = false ∧ ¬(c = '.') ∧ ¬(c = 'e') ∧ ¬(c = 'E') := by
  simp only [isNumCont, Bool.or_eq_false_iff, decide_eq_false_iff_not] at h
  exact ⟨h.1.1.1, h.1.1.2, h.1.2, h.2⟩

theorem parseExp_none (cs : List Char)
    (h : ∀ c cs2, cs = c :: cs2 → isNumCont c = false) :
    parseExp cs = none := by
  cases cs with
  | nil => rfl
  | cons c cs2 =>
    have hc := isNumCont_elim c (h c cs2 rfl)
    simp [parseExp, hc.2.2.1, hc.2.2.2]

theorem startsDigit_cons (c : Char) (x : List Char) :
    startsDigit (c :: x) = isDigitChar c := rfl

theorem parseExp_print (p1 : Int) (rest : List Char)
    (hR : ∀ c cs, rest = c :: cs → isDigitChar c = false) :
    parseExp ('e' :: ((if p1 < 0 then '-' else '+') ::
        ((if p1.natAbs < 10 then '0' :: natDigits p1.natAbs else natDigits p1.natAbs)
          ++ rest)))
      = some (p1, rest) := by
  obtain ⟨d, ds, hnd⟩ : ∃ d ds, natDigits p1.natAbs = d :: ds := by
    cases hcase : natDigits p1.natAbs with
    | nil => exact absurd hcase (natDigits_ne_nil _)
    | cons d ds => exact ⟨d, ds, rfl⟩
  have hdig : isDigitChar d = true :=
    natDigits_all_digits _ d (by rw [hnd]; exact List.mem_cons_self _ _)
  have hpn : parseDigits 0 (natDigits p1.natAbs ++ rest) = (p1.natAbs, rest) :=
    parseNat_natDigits _ _ hR
  have hpad : parseDigits 0 ('0' :: (natDigits p1.natAbs ++ rest)) = (p1.natAbs, rest) := by
    have h0 : isDigitChar '0' = true := by decide
    simp only [parseDigits, h0, if_true]
    rw [show 10 * 0 + ('0'.toNat - 48) = 0 from rfl]
    exact hpn
  by_cases hneg : p1 < 0 <;> by_cases hlt10 : p1.natAbs < 10
  · rw [if_pos hneg, if_pos hlt10]
    simp only [parseExp]
    rw [if_pos (Or.inl trivial), if_neg (by decide : ¬('-' = '+')), if_pos trivial,
      List.cons_append]
    simp only [startsDigit_cons]
    rw [if_pos (by decide : isDigitChar '0' = true), hpad]
    show some (-((p1.natAbs : Nat) : Int), rest) = some (p1, rest)
    rw [show -((p1.natAbs : Nat) : Int) = p1 by omega]
  · rw [if_pos hneg, if_neg hlt10, hnd]
    simp only [parseExp]
    rw [if_pos (Or.inl trivial), if_neg (by decide : ¬('-' = '+')), if_pos trivial]
    rw [List.cons_append]
    simp only [startsDigit_cons]
    rw [if_pos hdig, ← List.cons_append, ← hnd, hpn]
    show some (-((p1.natAbs : Nat) : Int), rest) = some (p1, rest)
    rw [show -((p1.natAbs : Nat) : Int) = p1 by omega]
  · rw [if_neg hneg, if_pos hlt10]
    simp only [parseExp]
    rw [if_pos (Or.inl trivial), if_pos trivial, List.cons_append]
    simp only [startsDigit_cons]
    rw [if_pos (by decide : isDigitChar '0' = true), hpad]
    show some (((p1.natAbs : Nat) : Int), rest) = some (p1, rest)
    rw [show ((p1.natAbs : Nat) : Int) = p1 by omega]
  · rw [if_neg hneg, if_neg hlt10, hnd]
    simp only [parseExp]
    rw [if_pos (Or.inl trivial), if_pos trivial]
    rw [List.cons_append]
    simp only [startsDigit_cons]
    rw [if_pos hdig, ← List.cons_append, ← hnd, hpn]
    show some (((p1.natAbs : Nat) : Int), rest) = some (p1, rest)
    rw [show ((p1.natAbs : Nat) : Int) = p1 by omega]

theorem parseNumBody_int (neg : Bool) (I : List Nat) (rest : List Char)
    (h : ∀ c cs, rest = c :: cs → isNumCont c = false) :
    parseNumBody neg I rest = some (.int (intOfParts neg I), rest) := by
  cases rest with
  | nil => rfl
  | cons c cs2 =>
    have hc := isNumCont_elim c (h c cs2 rfl)
    have hexp : parseExp (c :: cs2) = none := parseExp_none _ h
    simp [parseNumBody, hc.2.1, hexp]

theorem parseNumber_intDigits (n : Int) (rest : List Char)
    (h : ∀ c cs, rest = c :: cs → isNumCont c = false) :
    parseNumber (intDigits n ++ rest) = some (.int n, rest) := by
  have hrd : ∀ c cs, rest = c :: cs → isDigitChar c = false :=
    fun c cs hc => (isNumCont_elim c (h c cs hc)).1
  have hstop := takeDigits_stop rest hrd
  by_cases hn : n < 0
  · obtain ⟨d, ds, hnd⟩ : ∃ d ds, natDigits (-n).toNat = d :: ds := by
      cases hcase : natDigits (-n).toNat with
      | nil => exact absurd hcase (natDigits_ne_nil _)
      | cons d ds => exact ⟨d, ds, rfl⟩
    have hdig : isDigitChar d = true :=
      natDigits_all_digits _ d (by rw [hnd]; exact List.mem_cons_self _ _)
    have htd : takeDigits (natDigits (-n).toNat ++ rest)
        = ((natDigits (-n).toNat).map digitVal, rest) := by
      rw [takeDigits_append_digits _ (natDigits_all_digits _) rest, hstop]
      simp
    rw [intDigits, if_pos hn, List.cons_append, hnd, List.cons_append]
    simp only [parseNumber, startsDigit_cons]
    rw [if_pos trivial, if_pos hdig]
    rw [← List.cons_append, ← hnd, htd]
    rw [parseNumBody_int _ _ _ h]
    have hval : intOfParts true ((natDigits (-n).toNat).map digitVal) = n := by
      rw [intOfParts, if_pos rfl, digitsVal_natDigits]
      omega
    rw [hval]
  · obtain ⟨d, ds, hnd⟩ : ∃ d ds, natDigits n.toNat = d :: ds := by
      cases hcase : natDigits n.toNat with
      | nil => exact absurd hcase (natDigits_ne_nil _)
      | cons d ds => exact ⟨d, ds, rfl⟩
    have hdig : isDigitChar d = true :=
      natDigits_all_digits _ d (by rw [hnd]; exact List.mem_cons_self _ _)
    have hspec := digit_not_special d hdig
    have htd : takeDigits (natDigits n.toNat ++ rest)
        = ((natDigits n.toNat).map digitVal, rest) := by
      rw [takeDigits_append_digits _ (natDigits_all_digits _) rest, hstop]
      simp
    rw [intDigits, if_neg hn, hnd, List.cons_append]
    simp only [parseNumber]
    rw [if_neg hspec.2.1, if_pos hdig]
    rw [← List.cons_append, ← hnd, htd]
    rw [parseNumBody_int _ _ _ h]
    have hval : intOfParts false ((natDigits n.toNat).map digitVal) = n := by
      rw [intOfParts, if_neg (by simp), digitsVal_natDigits]
      omega
    rw [hval]

theorem parseLit_self (lit : List Char) : ∀ (rest : List Char),
    parseLit lit (lit ++ rest) = some rest := by
  induction lit with
  | nil => intro rest; rfl
  | cons l ls ih => intro rest; simp [parseLit, ih]

theorem length_le_escape (s : List Char) :
    s.length ≤ ((s.map escapeChar).flatten).length := by
  induction s with
  | nil => simp
  | cons c cs ih =>
    have hpos : 1 ≤ (escapeChar c).length := by
      unfold escapeChar
      split_ifs <;> simp [hex4]
    simp only [List.map_cons, List.flatten_cons, List.length_append, List.length_cons]
    omega

theorem isWs_false_of_toNat (c : Char) (h : 32 < c.toNat) : isWs c = false := by
  cases hws : isWs c with
  | false => rfl
  | true =>
    exfalso
    simp only [isWs, Bool.or_eq_true, decide_eq_true_eq] at hws
    rcases hws with ((h1 | h1) | h1) | h1 <;> subst h1 <;> exact absurd h (by decide)

theorem skipWs_not_ws (c : Char) (h : isWs c = false) (x : List Char) :
    skipWs (c :: x) = c :: x := by
  simp [skipWs, h]

theorem skipWs_ws (c : Char) (h : isWs c = true) (x : List Char) :
    skipWs (c :: x) = skipWs x := by
  simp [skipWs, h]

theorem skipWs_append_ws (pre : List Char) (h : ∀ c ∈ pre, isWs c = true)
    (x : List Char) : skipWs (pre ++ x) = skipWs x := by
  induction pre with
  | nil => rfl
  | cons c cs ih =>
    rw [List.cons_append, skipWs_ws c (h c (List.mem_cons_self _ _))]
    exact ih fun d hd => h d (List.mem_cons_of_mem _ hd)

theorem isDigitChar_bounds (c : Char) (h : isDigitChar c = true) :
    48 ≤ c.toNat ∧ c.toNat ≤ 57 := by
  simp only [isDigitChar, Bool.and_eq_true, decide_eq_true_eq] at h
  exact h

theorem intDigits_head (n : Int) :
    ∃ d ds, intDigits n = d :: ds ∧ isWs d = false ∧ ¬(d = '"') ∧ ¬(d = 'n') ∧
      ¬(d = 't') ∧ ¬(d = 'f') := by
  by_cases hn : n < 0
  · refine ⟨'-', natDigits (-n).toNat, ?_, by decide, by decide, by decide, by decide,
      by decide⟩
    rw [intDigits, if_pos hn]
  · obtain ⟨d, ds, hnd⟩ : ∃ d ds, natDigits n.toNat = d :: ds := by
      cases hcase : natDigits n.toNat with
      | nil => exact absurd hcase (natDigits_ne_nil _)
      | cons d ds => exact ⟨d, ds, rfl⟩
    have hdig : isDigitChar d = true :=
      natDigits_all_digits _ d (by rw [hnd]; exact List.mem_cons_self _ _)
    have hb := isDigitChar_bounds d hdig
    have hspec := digit_not_special d hdig
    refine ⟨d, ds, ?_, isWs_false_of_toNat d (by omega), hspec.1, hspec.2.2.1,
      hspec.2.2.2.1, hspec.2.2.2.2⟩
    rw [intDigits, if_neg hn, hnd]

theorem zeros_lead (k : Nat) (d : Nat) (ds : List Nat) (hd : d ≠ 0) :
    ((List.replicate k 0 ++ d :: ds).takeWhile fun x => x == 0) = List.replicate k 0 ∧
    ((List.replicate k 0 ++ d :: ds).dropWhile fun x => x == 0) = d :: ds := by
  induction k with
  | zero =>
    have hd' : ¬((d == 0) = true) := by simpa using hd
    simp only [List.replicate, List.nil_append]
    exact ⟨List.takeWhile_cons_of_neg hd', List.dropWhile_cons_of_neg hd'⟩
  | succ k ih =>
    simp only [List.replicate_succ, List.cons_append]
    constructor
    · rw [List.takeWhile_cons_of_pos (by simp), ih.1]
    · rw [List.dropWhile_cons_of_pos (by simp)]
      exact ih.2

theorem reverse_head_ne (d : Nat) (ds : List Nat)
    (hlast : (d :: ds).getLast? ≠ some 0) :
    ∃ g gs, (d :: ds).reverse = g :: gs ∧ g ≠ 0 := by
  obtain ⟨g, gs, hrev⟩ : ∃ g gs, (d :: ds).reverse = g :: gs := by
    cases hcase : (d :: ds).reverse with
    | nil =>
      have := congrArg List.length hcase
      simp at this
    | cons g gs => exact ⟨g, gs, rfl⟩
  refine ⟨g, gs, hrev, ?_⟩
  intro h0
  subst h0
  apply hlast
  rw [← List.head?_reverse, hrev]
  rfl

theorem normFloat_exact (neg : Bool) (I F : List Nat) (e : Int) (d : Nat) (ds : List Nat)
    (hIF : I ++ F = d :: ds) (hd : d ≠ 0)
    (hlast : (d :: ds).getLast? ≠ some 0) :
    normFloat neg I F e = ⟨neg, d :: ds, (I.length : Int) + e⟩ := by
  obtain ⟨g, gs, hrev, hg⟩ := reverse_head_ne d ds hlast
  have htake := (zeros_lead 0 d ds hd).1
  have hdrop := (zeros_lead 0 d ds hd).2
  simp only [List.replicate, List.nil_append] at htake hdrop
  have hrevdrop : ((d :: ds).reverse.dropWhile fun x => x == 0) = (d :: ds).reverse := by
    rw [hrev]
    exact List.dropWhile_cons_of_neg (by simpa using hg)
  simp only [normFloat, hIF, htake, hdrop, hrevdrop, List.reverse_reverse,
    List.length_nil]
  simp

theorem normFloat_leading (neg : Bool) (k : Nat) (d : Nat) (ds : List Nat)
    (hd : d ≠ 0) (hlast : (d :: ds).getLast? ≠ some 0) :
    normFloat neg [0] (List.replicate k 0 ++ d :: ds) 0 = ⟨neg, d :: ds, -(k : Int)⟩ := by
  obtain ⟨g, gs, hrev, hg⟩ := reverse_head_ne d ds hlast
  have hall : ([0] : List Nat) ++ (List.replicate k 0 ++ d :: ds)
      = List.replicate (k + 1) 0 ++ d :: ds := by
    simp [List.replicate_succ]
  have htake := (zeros_lead (k + 1) d ds hd).1
  have hdrop := (zeros_lead (k + 1) d ds hd).2
  have hrevdrop : ((d :: ds).reverse.dropWhile fun x => x == 0) = (d :: ds).reverse := by
    rw [hrev]
    exact List.dropWhile_cons_of_neg (by simpa using hg)
  simp only [normFloat, hall, htake, hdrop, hrevdrop, List.reverse_reverse,
    List.length_replicate]
  have harith : (([0] : List Nat).length : Int) + 0 - ((k + 1 : Nat) : Int) = -(k : Int) := by
    simp
  simp only [harith]
  simp

theorem normFloat_trailing (neg : Bool) (d : Nat) (ds : List Nat) (j : Nat)
    (hd : d ≠ 0) (hlast : (d :: ds).getLast? ≠ some 0) :
    normFloat neg (d :: ds ++ List.replicate j 0) [0] 0
      = ⟨neg, d :: ds, ((d :: ds ++ List.replicate j 0).length : Int)⟩ := by
  obtain ⟨g, gs, hrev, hg⟩ := reverse_head_ne d ds hlast
  have hd' : ¬((d == 0) = true) := by simpa using hd
  have hall : (d :: ds ++ List.replicate j 0) ++ ([0] : List Nat)
      = d :: (ds ++ List.replicate (j + 1) 0) := by
    simp [List.replicate_succ', List.append_assoc]
  have htake : ((d :: (ds ++ List.replicate (j + 1) 0)).takeWhile fun x => x == 0)
      = [] := List.takeWhile_cons_of_neg hd'
  have hdrop : ((d :: (ds ++ List.replicate (j + 1) 0)).dropWhile fun x => x == 0)
      = d :: (ds ++ List.replicate (j + 1) 0) := List.dropWhile_cons_of_neg hd'
  have hrev2 : (d :: (ds ++ List.replicate (j + 1) 0)).reverse
      = List.replicate (j + 1) 0 ++ (d :: ds).reverse := by
    rw [show d :: (ds ++ List.replicate (j + 1) 0) = (d :: ds) ++ List.replicate (j + 1) 0
      from by simp]
    rw [List.reverse_append, List.reverse_replicate]
  have hrevdrop : ((List.replicate (j + 1) 0 ++ (d :: ds).reverse).dropWhile
        fun x => x == 0) = (d :: ds).reverse := by
    rw [hrev]
    exact (zeros_lead (j + 1) g gs hg).2
  simp only [normFloat, hall, htake, hdrop, hrev2, hrevdrop, List.reverse_reverse,
    List.length_nil]
  simp

theorem normFloat_zero (neg : Bool) : normFloat neg [0] [0] 0 = ⟨neg, [0], 1⟩ := rfl

theorem parseNumber_map (neg : Bool) (I : List Nat) (R : List Char)
    (hne : I ≠ []) (hlt : ∀ x ∈ I, x < 10)
    (hR : ∀ c cs, R = c :: cs → isDigitChar c = false) :
    parseNumber ((cond neg ['-'] []) ++ (I.map digitChar10 ++ R))
      = parseNumBody neg I R := by
  obtain ⟨i, I2, rfl⟩ : ∃ i I2, I = i :: I2 := by
    cases I with
    | nil => exact absurd rfl hne
    | cons i I2 => exact ⟨i, I2, rfl⟩
  have hi : isDigitChar (digitChar10 i) = true :=
    isDigitChar_digitChar10 i (hlt i (List.mem_cons_self _ _))
  have hspec := digit_not_special _ hi
  have htd := takeDigits_digits (i :: I2) hlt R hR
  simp only [List.map_cons, List.cons_append] at htd
  cases neg with
  | false =>
    rw [show (cond false ['-'] [] : List Char) = [] from rfl, List.nil_append,
      List.map_cons, List.cons_append]
    simp only [parseNumber]
    rw [if_neg hspec.2.1, if_pos hi, htd]
  | true =>
    have hns : (cond true ['-'] [] : List Char) ++ (List.map digitChar10 (i :: I2) ++ R)
        = '-' :: (digitChar10 i :: (List.map digitChar10 I2 ++ R)) := by
      simp
    rw [hns]
    simp only [parseNumber, startsDigit_cons]
    rw [if_pos trivial, if_pos hi, htd]

theorem parseNumBody_frac (neg : Bool) (I F : List Nat) (R : List Char)
    (hF : F ≠ []) (hlt : ∀ x ∈ F, x < 10)
    (hR : ∀ c cs, R = c :: cs → isDigitChar c = false) :
    parseNumBody neg I ('.' :: (F.map digitChar10 ++ R)) = parseNumTail neg I F R := by
  obtain ⟨g, F2, rfl⟩ : ∃ g F2, F = g :: F2 := by
    cases F with
    | nil => exact absurd rfl hF
    | cons g F2 => exact ⟨g, F2, rfl⟩
  have hg : isDigitChar (digitChar10 g) = true :=
    isDigitChar_digitChar10 g (hlt g (List.mem_cons_self _ _))
  have htd := takeDigits_digits (g :: F2) hlt R hR
  simp only [List.map_cons, List.cons_append] at htd
  simp only [parseNumBody, List.map_cons, List.cons_append, startsDigit_cons]
  rw [if_pos trivial, if_pos hg, htd]

theorem parseNumBody_exp (neg : Bool) (I : List Nat) (Y : List Char) (e : Int)
    (r : List Char) (hexp : parseExp ('e' :: Y) = some (e, r)) :
    parseNumBody neg I ('e' :: Y) = some (.float (normFloat neg I [] e), r) := by
  simp only [parseNumBody]
  rw [if_neg (by decide : ¬('e' = '.'))]
  simp only [hexp]

theorem ok_elim (f : PyFloat) (hok : f.ok = true) :
    (f.digits = [0] ∧ f.decpt = 1) ∨
    (f.digits ≠ [] ∧ f.digits.head? ≠ some 0 ∧ f.digits.getLast? ≠ some 0 ∧
      ∀ x ∈ f.digits, x < 10) := by
  simp only [PyFloat.ok, Bool.or_eq_true, Bool.and_eq_true, beq_iff_eq, bne_iff_ne,
    ne_eq, Bool.not_eq_true', List.all_eq_true, decide_eq_true_eq,
    List.isEmpty_eq_false] at hok
  rcases hok with ⟨h1, h2⟩ | ⟨⟨⟨hne, hh⟩, hl⟩, ha⟩
  · exact Or.inl ⟨h1, h2⟩
  · exact Or.inr ⟨hne, hh, hl, ha⟩

theorem parseNumber_dumpFloat (f : PyFloat) (hok : f.ok = true) (rest : List Char)
    (h : ∀ c cs, rest = c :: cs → isNumCont c = false) :
    parseNumber (dumpFloat f ++ rest) = some (.float f, rest) := by
  obtain ⟨ng, D, p⟩ := f
  have hrd : ∀ c cs, rest = c :: cs → isDigitChar c = false :=
    fun c cs hc => (isNumCont_elim c (h c cs hc)).1
  have hre : parseExp rest = none := parseExp_none rest h
  rcases ok_elim _ hok with ⟨hD, hp⟩ | ⟨hne, hh, hl, hlt⟩
  · have hD' : D = [0] := hD
    have hp' : p = 1 := hp
    subst hD'
    subst hp'
    have hshape : dumpFloat ⟨ng, [0], 1⟩ ++ rest
        = (cond ng ['-'] []) ++ (([0] : List Nat).map digitChar10
            ++ ('.' :: (([0] : List Nat).map digitChar10 ++ rest))) := by
      cases ng <;> rfl
    rw [hshape, parseNumber_map ng [0] _ (by simp) (by simp)
        (by intro c cs hc; cases hc; rfl),
      parseNumBody_frac ng [0] [0] rest (by simp) (by simp) hrd]
    simp only [parseNumTail, hre]
    rw [normFloat_zero]
  · have hne' : D ≠ [] := hne
    obtain ⟨d, ds, rfl⟩ : ∃ d ds, D = d :: ds := by
      cases hcase : D with
      | nil => exact absurd hcase hne'
      | cons d ds => exact ⟨d, ds, rfl⟩
    have hh' : (d :: ds).head? ≠ some 0 := hh
    have hl' : (d :: ds).getLast? ≠ some 0 := hl
    have hlt' : ∀ x ∈ d :: ds, x < 10 := hlt
    have hd0 : d ≠ 0 := by
      intro h0
      subst h0
      simp at hh'
    by_cases hsci : p ≤ -4 ∨ 16 < p
    · cases ds with
      | nil =>
        have hshape : dumpFloat ⟨ng, [d], p⟩ ++ rest
            = (cond ng ['-'] []) ++ (([d] : List Nat).map digitChar10
                ++ ('e' :: ((if p - 1 < 0 then '-' else '+') ::
                  ((if (p - 1).natAbs < 10 then '0' :: natDigits (p - 1).natAbs
                    else natDigits (p - 1).natAbs) ++ rest)))) := by
          simp [dumpFloat, hsci]
        rw [hshape, parseNumber_map ng [d] _ (by simp)
            (by intro x hx; simp only [List.mem_singleton] at hx; rw [hx]
                exact hlt' d (List.mem_cons_self _ _))
            (by intro c cs hc; cases hc; rfl),
          parseNumBody_exp ng [d] _ (p - 1) rest (parseExp_print (p - 1) rest hrd)]
        rw [normFloat_exact ng [d] [] (p - 1) d [] (by simp) hd0 hl']
        have harith : (([d] : List Nat).length : Int) + (p - 1) = p := by
          simp only [List.length_singleton]
          omega
        rw [harith]
      | cons d2 ds2 =>
        have hshape : dumpFloat ⟨ng, d :: d2 :: ds2, p⟩ ++ rest
            = (cond ng ['-'] []) ++ (([d] : List Nat).map digitChar10
                ++ ('.' :: ((d2 :: ds2).map digitChar10
                  ++ ('e' :: ((if p - 1 < 0 then '-' else '+') ::
                    ((if (p - 1).natAbs < 10 then '0' :: natDigits (p - 1).natAbs
                      else natDigits (p - 1).natAbs) ++ rest)))))) := by
          simp [dumpFloat, hsci]
        rw [hshape, parseNumber_map ng [d] _ (by simp)
            (by intro x hx; simp only [List.mem_singleton] at hx; rw [hx]
                exact hlt' d (List.mem_cons_self _ _))
            (by intro c cs hc; cases hc; rfl),
          parseNumBody_frac ng [d] (d2 :: ds2) _ (by simp)
            (fun x hx => hlt' x (List.mem_cons_of_mem _ hx))
            (by intro c cs hc; cases hc; rfl)]
        simp only [parseNumTail, parseExp_print (p - 1) rest hrd]
        rw [normFloat_exact ng [d] (d2 :: ds2) (p - 1) d (d2 :: ds2) rfl hd0 hl']
        have harith : (([d] : List Nat).length : Int) + (p - 1) = p := by
          simp only [List.length_singleton]
          omega
        rw [harith]
    · by_cases hp0 : p ≤ 0
      · have hshape : dumpFloat ⟨ng, d :: ds, p⟩ ++ rest
            = (cond ng ['-'] []) ++ (([0] : List Nat).map digitChar10
                ++ ('.' :: ((List.replicate p.natAbs 0 ++ d :: ds).map digitChar10
                  ++ rest))) := by
          have h0c : digitChar10 0 = '0' := rfl
          simp [dumpFloat, hsci, hp0, List.map_append, List.map_replicate, h0c]
        rw [hshape, parseNumber_map ng [0] _ (by simp) (by simp)
            (by intro c cs hc; cases hc; rfl),
          parseNumBody_frac ng [0] (List.replicate p.natAbs 0 ++ d :: ds) rest
            (by simp)
            (by intro x hx
                rcases List.mem_append.mp hx with hx1 | hx1
                · rw [List.eq_of_mem_replicate hx1]
                  omega
                · exact hlt' x hx1) hrd]
        simp only [parseNumTail, hre]
        rw [normFloat_leading ng p.natAbs d ds hd0 hl']
        have harith : -(((p.natAbs : Nat)) : Int) = p := by omega
        rw [harith]
      · by_cases hbig : ((d :: ds).length : Int) ≤ p
        · have hbig' : ((ds.length : Nat) : Int) + 1 ≤ p := by
            simp only [List.length_cons] at hbig
            push_cast at hbig
            exact hbig
          have hshape : dumpFloat ⟨ng, d :: ds, p⟩ ++ rest
              = (cond ng ['-'] []) ++ (((d :: ds)
                    ++ List.replicate (p - ((d :: ds).length : Int)).toNat 0).map digitChar10
                  ++ ('.' :: (([0] : List Nat).map digitChar10 ++ rest))) := by
            have h0c : digitChar10 0 = '0' := rfl
            simp [dumpFloat, hsci, hp0, hbig', List.map_append, List.map_replicate, h0c,
              List.append_assoc]
          rw [hshape, parseNumber_map ng _ _ (by simp)
              (by intro x hx
                  rcases List.mem_append.mp hx with hx1 | hx1
                  · exact hlt' x hx1
                  · rw [List.eq_of_mem_replicate hx1]
                    omega)
              (by intro c cs hc; cases hc; rfl),
            parseNumBody_frac ng _ [0] rest (by simp) (by simp) hrd]
          simp only [parseNumTail, hre]
          rw [show ((d :: ds) ++ List.replicate (p - ((d :: ds).length : Int)).toNat 0)
              = d :: ds ++ List.replicate (p - ((d :: ds).length : Int)).toNat 0
            from rfl]
          rw [normFloat_trailing ng d ds _ hd0 hl']
          have harith : (((d :: ds ++ List.replicate
                (p - ((d :: ds).length : Int)).toNat 0).length : Nat) : Int) = p := by
            simp only [List.length_cons, List.length_append, List.length_replicate]
            push_cast
            omega
          rw [harith]
        · have hbig2 : ¬(((ds.length : Nat) : Int) + 1 ≤ p) := by
            simp only [List.length_cons] at hbig
            push_cast at hbig
            exact hbig
          have hlen : p.toNat < (d :: ds).length := by
            simp only [List.length_cons]
            omega
          obtain ⟨k, hk⟩ : ∃ k, p.toNat = k + 1 := ⟨p.toNat - 1, by omega⟩
          have hIF : (d :: ds).take p.toNat ++ (d :: ds).drop p.toNat = d :: ds :=
            List.take_append_drop _ _
          have hInne : (d :: ds).take p.toNat ≠ [] := by
            rw [hk, List.take_succ_cons]
            simp
          have hFne : (d :: ds).drop p.toNat ≠ [] := by
            intro hnil
            have := congrArg List.length hnil
            rw [List.length_drop] at this
            simp only [List.length_nil] at this
            omega
          have hshape : dumpFloat ⟨ng, d :: ds, p⟩ ++ rest
              = (cond ng ['-'] []) ++ (((d :: ds).take p.toNat).map digitChar10
                  ++ ('.' :: (((d :: ds).drop p.toNat).map digitChar10 ++ rest))) := by
            simp [dumpFloat, hsci, hp0, hbig2, List.map_take, List.map_drop,
              List.append_assoc]
          rw [hshape, parseNumber_map ng _ _ hInne
              (fun x hx => hlt' x (List.take_subset _ _ hx))
              (by intro c cs hc; cases hc; rfl),
            parseNumBody_frac ng _ _ rest hFne
              (fun x hx => hlt' x (List.drop_subset _ _ hx)) hrd]
          simp only [parseNumTail, hre]
          rw [normFloat_exact ng _ _ 0 d ds hIF hd0 hl']
          have harith : ((((d :: ds).take p.toNat).length : Nat) : Int) + 0 = p := by
            simp only [List.length_take, List.length_cons]
            push_cast
            omega
          rw [harith]

theorem dumpFloat_false_head (d : Nat) (ds : List Nat) (p : Int) :
    (dumpFloat ⟨false, d :: ds, p⟩).head? = some '0' ∨
    (dumpFloat ⟨false, d :: ds, p⟩).head? = some (digitChar10 d) := by
  by_cases hsci : p ≤ -4 ∨ 16 < p
  · right
    cases ds with
    | nil => simp [dumpFloat, hsci]
    | cons d2 ds2 => simp [dumpFloat, hsci]
  · by_cases hp0 : p ≤ 0
    · left
      simp [dumpFloat, hsci, hp0]
    · by_cases hbig : ((d :: ds).length : Int) ≤ p
      · right
        have hbig' : ((ds.length : Nat) : Int) + 1 ≤ p := by
          simp only [List.length_cons] at hbig
          push_cast at hbig
          exact hbig
        simp [dumpFloat, hsci, hp0, hbig', List.take_succ_cons]
      · right
        have hbig2 : ¬(((ds.length : Nat) : Int) + 1 ≤ p) := by
          simp only [List.length_cons] at hbig
          push_cast at hbig
          exact hbig
        obtain ⟨k, hk⟩ : ∃ k, p.toNat = k + 1 := ⟨p.toNat - 1, by omega⟩
        simp [dumpFloat, hsci, hp0, hbig2, hk, List.take_succ_cons]

theorem dumpFloat_head (f : PyFloat) (hok : f.ok = true) :
    ∃ a l, dumpFloat f = a :: l ∧ isWs a = false ∧ ¬(a = '"') ∧ ¬(a = 'n') ∧
      ¬(a = 't') ∧ ¬(a = 'f') := by
  obtain ⟨ng, D, p⟩ := f
  obtain ⟨d, ds, hdds, hd10⟩ : ∃ d ds, D = d :: ds ∧ d < 10 := by
    rcases ok_elim ⟨ng, D, p⟩ hok with ⟨h1, _⟩ | ⟨hne, _, _, ha⟩
    · exact ⟨0, [], h1, by omega⟩
    · have hne' : D ≠ [] := hne
      cases hcase : D with
      | nil => exact absurd hcase hne'
      | cons d ds =>
        refine ⟨d, ds, rfl, ?_⟩
        have ha' : ∀ x ∈ D, x < 10 := ha
        exact ha' d (by rw [hcase]; exact List.mem_cons_self _ _)
  subst hdds
  have hv : (48 + d).isValidChar := Or.inl (by omega)
  have htn : (digitChar10 d).toNat = 48 + d := toNat_ofNat_valid _ hv
  have h34 : ('"').toNat = 34 := rfl
  have h110 : ('n').toNat = 110 := rfl
  have h116 : ('t').toNat = 116 := rfl
  have h102 : ('f').toNat = 102 := rfl
  have hdigfacts : isWs (digitChar10 d) = false ∧ ¬(digitChar10 d = '"') ∧
      ¬(digitChar10 d = 'n') ∧ ¬(digitChar10 d = 't') ∧ ¬(digitChar10 d = 'f') := by
    refine ⟨isWs_false_of_toNat _ (by omega), ?_, ?_, ?_, ?_⟩ <;>
      · intro he
        have h5 := congrArg Char.toNat he
        rw [htn] at h5
        omega
  cases ng with
  | true =>
    have hsplit : dumpFloat ⟨true, d :: ds, p⟩ = '-' :: dumpFloat ⟨false, d :: ds, p⟩ := by
      simp [dumpFloat]
    exact ⟨'-', dumpFloat ⟨false, d :: ds, p⟩, hsplit, by decide, by decide, by decide,
      by decide, by decide⟩
  | false =>
    rcases dumpFloat_false_head d ds p with hhead | hhead
    · cases hcase : dumpFloat ⟨false, d :: ds, p⟩ with
      | nil => rw [hcase] at hhead; exact absurd hhead (by simp)
      | cons a l =>
        rw [hcase] at hhead
        simp only [List.head?_cons, Option.some.injEq] at hhead
        subst hhead
        exact ⟨'0', l, rfl, by decide, by decide, by decide, by decide, by decide⟩
    · cases hcase : dumpFloat ⟨false, d :: ds, p⟩ with
      | nil => rw [hcase] at hhead; exact absurd hhead (by simp)
      | cons a l =>
        rw [hcase] at hhead
        simp only [List.head?_cons, Option.some.injEq] at hhead
        subst hhead
        exact ⟨digitChar10 d, l, rfl, hdigfacts.1, hdigfacts.2.1, hdigfacts.2.2.1,
          hdigfacts.2.2.2.1, hdigfacts.2.2.2.2⟩

theorem skipWs_dumpVal (v : JVal) (hok : valOk v = true) (x : List Char) :
    skipWs (dumpVal v ++ x) = dumpVal v ++ x := by
  cases v with
  | null =>
    rw [show dumpVal JVal.null = ['n', 'u', 'l', 'l'] from rfl, List.cons_append]
    exact skipWs_not_ws _ (by decide) _
  | bool b =>
    cases b
    · rw [show dumpVal (JVal.bool false) = ['f', 'a', 'l', 's', 'e'] from rfl,
        List.cons_append]
      exact skipWs_not_ws _ (by decide) _
    · rw [show dumpVal (JVal.bool true) = ['t', 'r', 'u', 'e'] from rfl, List.cons_append]
      exact skipWs_not_ws _ (by decide) _
  | int n =>
    obtain ⟨d, ds, hd, hws, _⟩ := intDigits_head n
    rw [show dumpVal (JVal.int n) = intDigits n from rfl, hd, List.cons_append]
    exact skipWs_not_ws _ hws _
  | float fx =>
    obtain ⟨a, l, hal, hws, _⟩ := dumpFloat_head fx hok
    rw [show dumpVal (JVal.float fx) = dumpFloat fx from rfl, hal, List.cons_append]
    exact skipWs_not_ws _ hws _
  | str s =>
    rw [show dumpVal (JVal.str s) = quoteString s from rfl, quoteString, List.cons_append]
    exact skipWs_not_ws _ (by decide) _

theorem parseStringBody_quote_tail (s : String) (rest : List Char) :
    parseStringBody ((((s.data.map escapeChar).flatten ++ ['"']) ++ rest).length + 1)
        (((s.data.map escapeChar).flatten ++ ['"']) ++ rest)
      = some (s.data, rest) := by
  have hnorm : ((s.data.map escapeChar).flatten ++ ['"']) ++ rest
      = (s.data.map escapeChar).flatten ++ '"' :: rest := by
    simp
  rw [hnorm]
  apply parseStringBody_escape
  have := length_le_escape s.data
  simp only [List.length_append, List.length_cons]
  omega

theorem parseVal_dumpVal (v : JVal) (hok : valOk v = true) (rest : List Char)
    (h : ∀ c cs, rest = c :: cs → isNumCont c = false) :
    parseVal (dumpVal v ++ rest) = some (v, rest) := by
  cases v with
  | null =>
    rw [show dumpVal JVal.null = ['n', 'u', 'l', 'l'] from rfl, List.cons_append]
    simp only [parseVal]
    rw [if_neg (by decide), if_pos trivial]
    rw [show ['u', 'l', 'l'] ++ rest = ['u', 'l', 'l'] ++ rest from rfl,
      parseLit_self ['u', 'l', 'l'] rest]
  | bool b =>
    cases b
    · rw [show dumpVal (JVal.bool false) = ['f', 'a', 'l', 's', 'e'] from rfl,
        List.cons_append]
      simp only [parseVal]
      rw [if_neg (by decide), if_neg (by decide), if_neg (by decide), if_pos trivial]
      rw [show ['a', 'l', 's', 'e'] ++ rest = ['a', 'l', 's', 'e'] ++ rest from rfl,
        parseLit_self ['a', 'l', 's', 'e'] rest]
    · rw [show dumpVal (JVal.bool true) = ['t', 'r', 'u', 'e'] from rfl, List.cons_append]
      simp only [parseVal]
      rw [if_neg (by decide), if_neg (by decide), if_pos trivial]
      rw [show ['r', 'u', 'e'] ++ rest = ['r', 'u', 'e'] ++ rest from rfl,
        parseLit_self ['r', 'u', 'e'] rest]
  | int n =>
    obtain ⟨d, ds, hd, _, hq, hn', ht', hf'⟩ := intDigits_head n
    have hiv := parseNumber_intDigits n rest h
    rw [show dumpVal (JVal.int n) = intDigits n from rfl, hd, List.cons_append]
    simp only [parseVal]
    rw [if_neg hq, if_neg hn', if_neg ht', if_neg hf']
    rw [← List.cons_append, ← hd, hiv]
  | float fx =>
    have hokx : fx.ok = true := hok
    obtain ⟨a, l, hal, _, hq, hn', ht', hf'⟩ := dumpFloat_head fx hokx
    have hpn := parseNumber_dumpFloat fx hokx rest h
    rw [show dumpVal (JVal.float fx) = dumpFloat fx from rfl, hal, List.cons_append]
    simp only [parseVal]
    rw [if_neg hq, if_neg hn', if_neg ht', if_neg hf']
    rw [← List.cons_append, ← hal, hpn]
  | str s =>
    rw [show dumpVal (JVal.str s) = quoteString s from rfl, quoteString, List.cons_append]
    simp only [parseVal]
    rw [if_pos trivial]
    rw [parseStringBody_quote_tail s rest]

theorem parseMembers_step (f : Nat) (k : String) (v : JVal) (hok : valOk v = true)
    (tail : List Char) (h : ∀ c cs, tail = c :: cs → isNumCont c = false) :
    parseMembers (f + 1)
        ('\n' :: (("    ".data ++ quoteString k ++ ": ".data ++ dumpVal v) ++ tail))
      = (match skipWs tail with
         | c3 :: cs5 =>
           if c3 = ',' then
             match parseMembers f cs5 with
             | some (rest', cs6) => some ((k, v) :: rest', cs6)
             | none => none
           else if c3 = rbrace then some ([(k, v)], cs5)
           else none
         | [] => none) := by
  have hin : '\n' :: (("    ".data ++ quoteString k ++ ": ".data ++ dumpVal v) ++ tail)
      = '\n' :: ' ' :: ' ' :: ' ' :: ' ' :: '"' ::
          (((k.data.map escapeChar).flatten ++ ['"']) ++
            (':' :: ' ' :: (dumpVal v ++ tail))) := by
    simp [quoteString]
  rw [hin]
  simp only [parseMembers]
  rw [skipWs_ws _ (by decide), skipWs_ws _ (by decide), skipWs_ws _ (by decide),
    skipWs_ws _ (by decide), skipWs_ws _ (by decide), skipWs_not_ws _ (by decide)]
  have hquote : parseStringBody
      ((((k.data.map escapeChar).flatten ++ ['"'])
        ++ (':' :: ' ' :: (dumpVal v ++ tail))).length + 1)
      (((k.data.map escapeChar).flatten ++ ['"']) ++ (':' :: ' ' :: (dumpVal v ++ tail)))
      = some (k.data, ':' :: ' ' :: (dumpVal v ++ tail)) := parseStringBody_quote_tail k _
  have heta : String.mk k.data = k := rfl
  have hsk1 : skipWs (':' :: ' ' :: (dumpVal v ++ tail)) = ':' :: ' ' :: (dumpVal v ++ tail) :=
    skipWs_not_ws _ (by decide) _
  have hsk2 : skipWs (' ' :: (dumpVal v ++ tail)) = dumpVal v ++ tail := by
    rw [skipWs_ws _ (by decide), skipWs_dumpVal v hok]
  have hpv := parseVal_dumpVal v hok tail h
  simp only [hquote, hsk1, hsk2, hpv, heta, reduceIte]

theorem sepBy_nil (sep : List Char) : sepBy sep [] = [] := rfl

theorem sepBy_single (sep x : List Char) : sepBy sep [x] = x := rfl

theorem sepBy_cons2 (sep x y : List Char) (ys : List (List Char)) :
    sepBy sep (x :: y :: ys) = x ++ sep ++ sepBy sep (y :: ys) := rfl

theorem parseMembers_inv : ∀ (r : JRecord), r ≠ [] →
    (∀ kv ∈ r, valOk kv.2 = true) → ∀ (fuel : Nat), r.length ≤ fuel →
    ∀ (rest : List Char),
    parseMembers fuel ('\n' :: (sepBy ",\n".data
        (r.map fun kv => "    ".data ++ quoteString kv.1 ++ ": ".data ++ dumpVal kv.2)
      ++ ('\n' :: ' ' :: ' ' :: rbrace :: rest)))
      = some (r, rest) := by
  intro r
  induction r with
  | nil => intro hne; exact absurd rfl hne
  | cons kv rs ih =>
    intro _ hwf fuel hfuel rest
    obtain ⟨k, v⟩ := kv
    have hok : valOk v = true := hwf (k, v) (List.mem_cons_self _ _)
    have hwf2 : ∀ kv ∈ rs, valOk kv.2 = true :=
      fun kv hkv => hwf kv (List.mem_cons_of_mem _ hkv)
    cases fuel with
    | zero => simp at hfuel
    | succ f =>
      cases rs with
      | nil =>
        simp only [List.map_cons, List.map_nil, sepBy_single]
        rw [parseMembers_step f k v hok ('\n' :: ' ' :: ' ' :: rbrace :: rest)
          (by intro c cs hc; cases hc; rfl)]
        rw [skipWs_ws _ (by decide), skipWs_ws _ (by decide), skipWs_ws _ (by decide),
          skipWs_not_ws _ (by decide)]
        simp only [reduceIte]
        rw [if_neg (by decide : ¬(rbrace = ','))]
      | cons kv2 rs2 =>
        have hgoal : '\n' :: (sepBy ",\n".data
              (((k, v) :: kv2 :: rs2).map fun kv =>
                "    ".data ++ quoteString kv.1 ++ ": ".data ++ dumpVal kv.2)
            ++ ('\n' :: ' ' :: ' ' :: rbrace :: rest))
            = '\n' :: (("    ".data ++ quoteString k ++ ": ".data ++ dumpVal v)
              ++ (',' :: '\n' :: (sepBy ",\n".data
                  ((kv2 :: rs2).map fun kv =>
                    "    ".data ++ quoteString kv.1 ++ ": ".data ++ dumpVal kv.2)
                ++ ('\n' :: ' ' :: ' ' :: rbrace :: rest)))) := by
          simp [sepBy_cons2]
        rw [hgoal, parseMembers_step f k v hok _ (by intro c cs hc; cases hc; rfl)]
        rw [skipWs_not_ws _ (by decide)]
        have hih := ih (by simp) hwf2 f (by simpa using Nat.le_of_succ_le_succ hfuel) rest
        simp only [reduceIte, hih]

theorem dumpRecord_head (r : JRecord) : ∃ W, dumpRecord r = lbrace :: W := by
  cases r with
  | nil => exact ⟨[rbrace], rfl⟩
  | cons kv rs => exact ⟨_, rfl⟩

theorem skipWs_record_body (k : String) (v : JVal) (ms : List (List Char))
    (tail2 : List Char) :
    ∃ Y, skipWs ('\n' :: (sepBy ",\n".data
        (("    ".data ++ quoteString k ++ ": ".data ++ dumpVal v) :: ms) ++ tail2))
      = '"' :: Y := by
  cases ms with
  | nil =>
    refine ⟨((k.data.map escapeChar).flatten ++ ['"'])
      ++ (':' :: ' ' :: (dumpVal v ++ tail2)), ?_⟩
    have hnorm : '\n' :: (sepBy ",\n".data
          [("    ".data ++ quoteString k ++ ": ".data ++ dumpVal v)] ++ tail2)
        = '\n' :: ' ' :: ' ' :: ' ' :: ' ' :: '"' ::
          (((k.data.map escapeChar).flatten ++ ['"']) ++
            (':' :: ' ' :: (dumpVal v ++ tail2))) := by
      simp [sepBy_single, quoteString]
    rw [hnorm]
    rw [skipWs_ws _ (by decide), skipWs_ws _ (by decide), skipWs_ws _ (by decide),
      skipWs_ws _ (by decide), skipWs_ws _ (by decide), skipWs_not_ws _ (by decide)]
  | cons m ms2 =>
    refine ⟨((k.data.map escapeChar).flatten ++ ['"'])
      ++ (':' :: ' ' :: (dumpVal v ++
        (',' :: '\n' :: (sepBy ",\n".data (m :: ms2) ++ tail2)))), ?_⟩
    have hnorm : '\n' :: (sepBy ",\n".data
          (("    ".data ++ quoteString k ++ ": ".data ++ dumpVal v) :: m :: ms2) ++ tail2)
        = '\n' :: ' ' :: ' ' :: ' ' :: ' ' :: '"' ::
          (((k.data.map escapeChar).flatten ++ ['"']) ++
            (':' :: ' ' :: (dumpVal v ++
              (',' :: '\n' :: (sepBy ",\n".data (m :: ms2) ++ tail2))))) := by
      simp [sepBy_cons2, quoteString]
    rw [hnorm]
    rw [skipWs_ws _ (by decide), skipWs_ws _ (by decide), skipWs_ws _ (by decide),
      skipWs_ws _ (by decide), skipWs_ws _ (by decide), skipWs_not_ws _ (by decide)]

theorem parseRecord_inv (r : JRecord) (fuel : Nat) (pre rest : List Char)
    (hpre : ∀ c ∈ pre, isWs c = true) (hwf : ∀ kv ∈ r, valOk kv.2 = true)
    (hfuel : r.length ≤ fuel) :
    parseRecord fuel (pre ++ (dumpRecord r ++ rest)) = some (r, rest) := by
  cases r with
  | nil =>
    have hskip : skipWs (pre ++ (dumpRecord [] ++ rest)) = lbrace :: rbrace :: rest := by
      rw [skipWs_append_ws pre hpre,
        show dumpRecord [] ++ rest = lbrace :: rbrace :: rest from rfl,
        skipWs_not_ws _ (by decide)]
    simp only [parseRecord, hskip]
    rw [if_pos trivial]
    simp only [skipWs_not_ws rbrace (by decide)]
    rw [if_pos trivial]
  | cons kv rs =>
    obtain ⟨k, v⟩ := kv
    have hlb : lbrace = '\x7b' := by decide
    have hrb : rbrace = '\x7d' := by decide
    have hdr : dumpRecord ((k, v) :: rs) ++ rest
        = lbrace :: ('\n' :: (sepBy ",\n".data
            (("    ".data ++ quoteString k ++ ": ".data ++ dumpVal v)
              :: (rs.map fun kv =>
                "    ".data ++ quoteString kv.1 ++ ": ".data ++ dumpVal kv.2))
          ++ ('\n' :: ' ' :: ' ' :: rbrace :: rest))) := by
      rw [hlb, hrb]
      simp [dumpRecord]
    have hskip2 : skipWs (pre ++ (dumpRecord ((k, v) :: rs) ++ rest))
        = lbrace :: ('\n' :: (sepBy ",\n".data
            (("    ".data ++ quoteString k ++ ": ".data ++ dumpVal v)
              :: (rs.map fun kv =>
                "    ".data ++ quoteString kv.1 ++ ": ".data ++ dumpVal kv.2))
          ++ ('\n' :: ' ' :: ' ' :: rbrace :: rest))) := by
      rw [skipWs_append_ws pre hpre, hdr, skipWs_not_ws _ (by decide)]
    simp only [parseRecord, hskip2]
    rw [if_pos trivial]
    obtain ⟨Y, hY⟩ := skipWs_record_body k v (rs.map fun kv =>
      "    ".data ++ quoteString kv.1 ++ ": ".data ++ dumpVal kv.2)
      ('\n' :: ' ' :: ' ' :: rbrace :: rest)
    simp only [hY]
    rw [if_neg (by decide : ¬('"' = rbrace))]
    have hmem := parseMembers_inv ((k, v) :: rs) (by simp) hwf fuel hfuel rest
    simp only [List.map_cons] at hmem
    exact hmem

theorem dumpRecord_head_records (r : JRecord) (ms : List (List Char)) (tail2 : List Char) :
    ∃ Y, skipWs ('\n' :: (sepBy ",\n".data (("  ".data ++ dumpRecord r) :: ms) ++ tail2))
      = lbrace :: Y := by
  obtain ⟨W, hW⟩ := dumpRecord_head r
  cases ms with
  | nil =>
    refine ⟨W ++ tail2, ?_⟩
    have hnorm : '\n' :: (sepBy ",\n".data [("  ".data ++ dumpRecord r)] ++ tail2)
        = '\n' :: ' ' :: ' ' :: lbrace :: (W ++ tail2) := by
      rw [hW]
      simp [sepBy_single]
    rw [hnorm]
    rw [skipWs_ws _ (by decide), skipWs_ws _ (by decide), skipWs_ws _ (by decide),
      skipWs_not_ws _ (by decide)]
  | cons m ms2 =>
    refine ⟨W ++ (',' :: '\n' :: (sepBy ",\n".data (m :: ms2) ++ tail2)), ?_⟩
    have hnorm : '\n' :: (sepBy ",\n".data (("  ".data ++ dumpRecord r) :: m :: ms2) ++ tail2)
        = '\n' :: ' ' :: ' ' :: lbrace ::
          (W ++ (',' :: '\n' :: (sepBy ",\n".data (m :: ms2) ++ tail2))) := by
      rw [hW]
      simp [sepBy_cons2]
    rw [hnorm]
    rw [skipWs_ws _ (by decide), skipWs_ws _ (by decide), skipWs_ws _ (by decide),
      skipWs_not_ws _ (by decide)]

theorem parseRecordsAux_inv : ∀ (rs : List JRecord), rs ≠ [] →
    (∀ q ∈ rs, ∀ kv ∈ q, valOk kv.2 = true) → ∀ (fuel : Nat),
    rs.length + (rs.map List.length).sum < fuel → ∀ (rest : List Char),
    parseRecordsAux fuel
        ('\n' :: (sepBy ",\n".data (rs.map fun r => "  ".data ++ dumpRecord r)
          ++ ('\n' :: ']' :: rest)))
      = some (rs, rest) := by
  intro rs
  induction rs with
  | nil => intro hne; exact absurd rfl hne
  | cons r rs2 ih =>
    intro _ hwf fuel hfuel rest
    have hwfr : ∀ kv ∈ r, valOk kv.2 = true := hwf r (List.mem_cons_self _ _)
    have hwf2 : ∀ q ∈ rs2, ∀ kv ∈ q, valOk kv.2 = true :=
      fun q hq => hwf q (List.mem_cons_of_mem _ hq)
    cases fuel with
    | zero => simp at hfuel
    | succ f =>
      have hf : r.length ≤ f := by
        simp only [List.length_cons, List.map_cons, List.sum_cons] at hfuel
        omega
      cases rs2 with
      | nil =>
        have hin : '\n' :: (sepBy ",\n".data
              (List.map (fun q => "  ".data ++ dumpRecord q) [r]) ++ ('\n' :: ']' :: rest))
            = ['\n', ' ', ' '] ++ (dumpRecord r ++ ('\n' :: ']' :: rest)) := by
          simp [sepBy_single]
        rw [hin]
        have hpr := parseRecord_inv r f ['\n', ' ', ' '] ('\n' :: ']' :: rest) (by decide)
          hwfr hf
        simp only [parseRecordsAux, hpr]
        have hsk : skipWs ('\n' :: ']' :: rest) = ']' :: rest := by
          rw [skipWs_ws _ (by decide), skipWs_not_ws _ (by decide)]
        simp only [hsk]
        rw [if_neg (by decide : ¬(']' = ',')), if_pos trivial]
      | cons r2 rs3 =>
        have hin : '\n' :: (sepBy ",\n".data
              (List.map (fun q => "  ".data ++ dumpRecord q) (r :: r2 :: rs3))
            ++ ('\n' :: ']' :: rest))
            = ['\n', ' ', ' '] ++ (dumpRecord r ++ (',' :: '\n' ::
                (sepBy ",\n".data (List.map (fun q => "  ".data ++ dumpRecord q) (r2 :: rs3))
                  ++ ('\n' :: ']' :: rest)))) := by
          simp [sepBy_cons2]
        rw [hin]
        have hpr := parseRecord_inv r f ['\n', ' ', ' '] (',' :: '\n' ::
            (sepBy ",\n".data (List.map (fun q => "  ".data ++ dumpRecord q) (r2 :: rs3))
              ++ ('\n' :: ']' :: rest))) (by decide) hwfr hf
        simp only [parseRecordsAux, hpr]
        have hsk := skipWs_not_ws ',' (by decide) ('\n' ::
            (sepBy ",\n".data (List.map (fun q => "  ".data ++ dumpRecord q) (r2 :: rs3))
              ++ ('\n' :: ']' :: rest)))
        simp only [hsk]
        rw [if_pos trivial]
        have hih := ih (by simp) hwf2 f
          (by simp only [List.length_cons, List.map_cons, List.sum_cons] at hfuel ⊢; omega) rest
        simp only [hih]

theorem member_length_pos (kv : String × JVal) :
    1 ≤ ("    ".data ++ quoteString kv.1 ++ ": ".data ++ dumpVal kv.2).length := by
  have h4 : ("    ".data : List Char).length = 4 := rfl
  simp only [List.length_append, h4]
  omega

theorem members_count_le (r : JRecord) :
    r.length ≤ (sepBy ",\n".data (r.map fun kv =>
      "    ".data ++ quoteString kv.1 ++ ": ".data ++ dumpVal kv.2)).length := by
  induction r with
  | nil => simp [sepBy_nil]
  | cons kv rs ih =>
    have hm := member_length_pos kv
    cases rs with
    | nil =>
      have hsep : sepBy ",\n".data (List.map (fun kv =>
          "    ".data ++ quoteString kv.1 ++ ": ".data ++ dumpVal kv.2) [kv])
          = "    ".data ++ quoteString kv.1 ++ ": ".data ++ dumpVal kv.2 := by
        simp [sepBy_single]
      rw [hsep, show ([kv] : JRecord).length = 1 from rfl]
      exact hm
    | cons kv2 rs2 =>
      have hsep : sepBy ",\n".data (List.map (fun kv =>
          "    ".data ++ quoteString kv.1 ++ ": ".data ++ dumpVal kv.2) (kv :: kv2 :: rs2))
          = ("    ".data ++ quoteString kv.1 ++ ": ".data ++ dumpVal kv.2) ++ ",\n".data
            ++ sepBy ",\n".data (List.map (fun kv =>
              "    ".data ++ quoteString kv.1 ++ ": ".data ++ dumpVal kv.2) (kv2 :: rs2)) := by
        rw [List.map_cons, List.map_cons]
        exact sepBy_cons2 _ _ _ _
      rw [hsep]
      simp only [List.length_append, List.length_cons] at hm ih ⊢
      omega

theorem length_dumpRecord (r : JRecord) : 1 + r.length ≤ (dumpRecord r).length := by
  cases r with
  | nil =>
    have h2 : (dumpRecord ([] : JRecord)).length = 2 := rfl
    have h0 : ([] : JRecord).length = 0 := rfl
    omega
  | cons kv rs =>
    have hcount := members_count_le (kv :: rs)
    have hpre : ("\x7b\n".data : List Char).length = 2 := rfl
    have hpost : ("\n  \x7d".data : List Char).length = 4 := rfl
    simp only [dumpRecord, List.length_append, hpre, hpost]
    simp only [List.length_cons] at *
    omega

theorem records_size_le_sepBy (rs : List JRecord) :
    rs.length + (rs.map List.length).sum
      ≤ (sepBy ",\n".data (rs.map fun r => "  ".data ++ dumpRecord r)).length := by
  induction rs with
  | nil => simp [sepBy]
  | cons r rs2 ih =>
    have hdr := length_dumpRecord r
    have h2 : ("  ".data : List Char).length = 2 := rfl
    cases rs2 with
    | nil =>
      simp only [List.map_cons, List.map_nil, sepBy, List.length_append, h2,
        List.length_cons, List.length_nil, List.sum_cons, List.sum_nil]
      omega
    | cons r2 rs3 =>
      simp only [List.map_cons, sepBy, List.length_append, h2, List.length_cons,
        List.sum_cons] at *
      omega

end PyJson

/-- C9: reporter JSON round-trip — for every list of flat field-mapping
records (string keys, JSON-representable scalar values: null, boolean,
integer, arbitrary string, or finite float — each float identified with the
canonical shortest-repr decimal that CPython's `repr` prints for it, which
the `valOk` hypothesis states), serializing with the auditors'
`json.dumps(..., indent=2)` convention and then JSON-parsing the printed
output reproduces the original record list exactly, field for field and in
order. -/
theorem c9_reporter_json_round_trip (records : List PyJson.JRecord)
    (hwf : ∀ r ∈ records, ∀ kv ∈ r, PyJson.valOk kv.2 = true) :
    PyJson.loads (PyJson.dumps records) = some records := by
  cases records with
  | nil => rfl
  | cons r rs =>
    have hdata : (PyJson.dumps (r :: rs)).data
        = '[' :: ('\n' :: (PyJson.sepBy ",\n".data
            (("  ".data ++ PyJson.dumpRecord r)
              :: (rs.map fun q => "  ".data ++ PyJson.dumpRecord q))
          ++ ('\n' :: ']' :: []))) := by
      simp only [PyJson.dumps]
      simp
    obtain ⟨Y, hY⟩ := PyJson.dumpRecord_head_records r
      (rs.map fun q => "  ".data ++ PyJson.dumpRecord q) ('\n' :: ']' :: [])
    have hbound : (r :: rs).length + ((r :: rs).map List.length).sum
        < ('[' :: ('\n' :: (PyJson.sepBy ",\n".data
            (("  ".data ++ PyJson.dumpRecord r)
              :: (rs.map fun q => "  ".data ++ PyJson.dumpRecord q))
          ++ ('\n' :: ']' :: [])))).length + 1 := by
      have h := PyJson.records_size_le_sepBy (r :: rs)
      simp only [List.map_cons, List.length_cons, List.length_append, List.length_nil,
        List.sum_cons] at h ⊢
      omega
    have haux := PyJson.parseRecordsAux_inv (r :: rs) (by simp) hwf
      (('[' :: ('\n' :: (PyJson.sepBy ",\n".data
          (("  ".data ++ PyJson.dumpRecord r)
            :: (rs.map fun q => "  ".data ++ PyJson.dumpRecord q))
        ++ ('\n' :: ']' :: [])))).length + 1) hbound []
    simp only [List.map_cons] at haux
    simp only [PyJson.loads, hdata, PyJson.skipWs_not_ws '[' (by decide), reduceIte,
      hY, haux]
    first
    | rfl
    | (rw [if_neg (by decide : ¬(PyJson.lbrace = ']'))]; rfl)

/-- Witness for C9 at a concrete record list holding a float
(`0.8 = ⟨false, [8], 0⟩`), an integer, a string, a boolean and a null. -/
theorem c9_reporter_json_round_trip_witness :
    (∀ r ∈ ([[("cost", PyJson.JVal.float ⟨false, [8], 0⟩),
        ("count", PyJson.JVal.int 3)],
      [("name", PyJson.JVal.str "vol-1"), ("attempted", PyJson.JVal.bool false),
        ("error", PyJson.JVal.null)]] : List PyJson.JRecord),
      ∀ kv ∈ r, PyJson.valOk kv.2 = true) ∧
    PyJson.loads (PyJson.dumps
        [[("cost", PyJson.JVal.float ⟨false, [8], 0⟩),
          ("count", PyJson.JVal.int 3)],
         [("name", PyJson.JVal.str "vol-1"), ("attempted", PyJson.JVal.bool false),
          ("error", PyJson.JVal.null)]])
      = some [[("cost", PyJson.JVal.float ⟨false, [8], 0⟩),
          ("count", PyJson.JVal.int 3)],
         [("name", PyJson.JVal.str "vol-1"), ("attempted", PyJson.JVal.bool false),
          ("error", PyJson.JVal.null)]] :=
  ⟨by decide, c9_reporter_json_round_trip _ (by decide)⟩

/-- C10 witness: a volume without `CreateTime` appears in the findings under
`--older-than-days 365`. -/
theorem c10_missing_createtime_included_witness :
    ∃ r ∈ (EbsVolumeAuditor.processVolumes ⟨false, 100, some 365, []⟩ 0 (fun _ => none)
        [⟨"vol-noct", "available", none, 8, []⟩] 0).1,
      r.volume_id = "vol-noct" ∧ r.ageDays = none :=
  c10_missing_createtime_included ⟨false, 100, some 365, []⟩ 0 (fun _ => none)
    [⟨"vol-noct", "available", none, 8, []⟩] 0 ⟨"vol-noct", "available", none, 8, []⟩
    (List.mem_cons_self _ _) rfl rfl

end AutomationScripts
